import Mathlib

/-!
# Verification of the supply-tracer-parser aggregator state machine

Shallow embedding of `state.go` from ziogaschr/supply-tracer-parser.

Modelling conventions:
* `common.Hash` (an opaque 32-byte identifier) is modelled as `Nat`
  (the zero hash is `0`); block numbers are `uint64`, modelled as `Nat`
  with explicit wraparound (`u64sub1`) where the Go code computes `x - 1`
  on an unsigned value.
* `*big.Int` supply quantities are modelled as `Int`.
* The ordered map `HashHistory` (wk8/go-ordered-map: insertion-ordered,
  `Oldest` = first inserted pair, `Newest` = last inserted pair) is a list
  of `(number, bucket)` pairs in insertion order; a bucket
  (`map[common.Hash]supplyInfo`) is an association list keyed by hash.
* Errors sent on `errCh` are accumulated in a list, in send order; the Go
  callers do not stop when a callee has sent an error, and the embedding
  mirrors that.  Dereferencing `Newest()`/`Oldest()` on an empty ordered
  map is a nil-pointer dereference in Go: the embedding records this as
  `crashed := true` and aborts the ingest (the Go process dies).
* The mutual recursion `rewindTo` ⇄ `forwardTo` is made structural with a
  fuel parameter; fuel is consumed on nested calls and on each replay step, and every
  execution path reasoned about below uses nesting depth ≤ 3, far below
  `topFuel`.
-/

namespace SupplyTracer

/-- `2^64 - 1`, the largest `uint64` value. -/
def U64MAX : Nat := 2 ^ 64 - 1

/-- Go `x - 1` on `uint64`: wraps to `2^64 - 1` when `x = 0`. -/
def u64sub1 (x : Nat) : Nat := if x = 0 then U64MAX else x - 1

/-- One per-block supply record (`supplyInfo` in the Go source): block
identity plus the four supply quantities of the record. -/
structure supplyInfo where
  number : Nat
  hash : Nat
  parentHash : Nat
  delta : Int
  reward : Int
  withdrawals : Int
  burn : Int
deriving DecidableEq, Repr

/-- A height's bucket of competing blocks, keyed by block hash
(`map[common.Hash]supplyInfo`). -/
abbrev Bucket := List (Nat × supplyInfo)

/-- The insertion-ordered history `OrderedMap[uint64, map[Hash]supplyInfo]`:
oldest (first-inserted) pair first. -/
abbrev History := List (Nat × Bucket)

/-- Association-list lookup in a bucket (Go map indexing by hash). -/
def bucketFind (b : Bucket) (h : Nat) : Option supplyInfo :=
  match b with
  | [] => none
  | (k, v) :: rest => if k = h then some v else bucketFind rest h

/-- Go map assignment `bucket[h] = v`: replace in place, or add. -/
def bucketInsert (b : Bucket) (h : Nat) (v : supplyInfo) : Bucket :=
  match b with
  | [] => [(h, v)]
  | (k, w) :: rest => if k = h then (h, v) :: rest else (k, w) :: bucketInsert rest h v

/-- `HashHistory.Get`: lookup a height's bucket. -/
def histGet (hist : History) (n : Nat) : Option Bucket :=
  match hist with
  | [] => none
  | (k, b) :: rest => if k = n then some b else histGet rest n

/-- `HashHistory.Set` on an existing key keeps its insertion position;
a new key is appended at the newest end. -/
def histSet (hist : History) (n : Nat) (b : Bucket) : History :=
  match hist with
  | [] => [(n, b)]
  | (k, c) :: rest => if k = n then (n, b) :: rest else (k, c) :: histSet rest n b

/-- `HashHistory.Oldest().Key` (`none` models the nil pair). -/
def oldestKey (hist : History) : Option Nat := hist.head?.map (·.1)

/-- `HashHistory.Newest().Key` (`none` models the nil pair). -/
def newestKey (hist : History) : Option Nat := hist.getLast?.map (·.1)

/-- `historyLimit = 1024`. -/
def historyLimit : Nat := 1024

/-- The aggregator state (`State` in the Go source): head identity, the
four running totals, the canonical-chain index and the bounded history. -/
structure State where
  blockNumber : Nat
  hash : Nat
  parentHash : Nat
  totalDelta : Int
  totalReward : Int
  totalWithdrawals : Int
  totalBurn : Int
  canonicalChain : List (Nat × Nat)
  hashHistory : History
deriving DecidableEq, Repr

/-- `NewState()`: zero head, zero totals, empty maps. -/
def newState : State :=
  { blockNumber := 0, hash := 0, parentHash := 0
    totalDelta := 0, totalReward := 0, totalWithdrawals := 0, totalBurn := 0
    canonicalChain := [], hashHistory := [] }

/-- `canonicalChain` lookup (Go map indexing). -/
def canonFind (c : List (Nat × Nat)) (n : Nat) : Option Nat :=
  match c with
  | [] => none
  | (k, h) :: rest => if k = n then some h else canonFind rest n

/-- `canonicalChain[n] = h`: replace in place, or add. -/
def canonInsert (c : List (Nat × Nat)) (n h : Nat) : List (Nat × Nat) :=
  match c with
  | [] => [(n, h)]
  | (k, g) :: rest => if k = n then (n, h) :: rest else (k, g) :: canonInsert rest n h

/-- `setHead`: install the record as head and record it in the canonical
index. -/
def setHead (s : State) (b : supplyInfo) : State :=
  { s with blockNumber := b.number, hash := b.hash, parentHash := b.parentHash
           canonicalChain := canonInsert s.canonicalChain b.number b.hash }

/-- `add`: add the record's quantities to the totals. -/
def add (s : State) (b : supplyInfo) : State :=
  { s with totalDelta := s.totalDelta + b.delta
           totalReward := s.totalReward + b.reward
           totalWithdrawals := s.totalWithdrawals + b.withdrawals
           totalBurn := s.totalBurn + b.burn }

/-- `sub`: subtract the record's quantities from the totals. -/
def sub (s : State) (b : supplyInfo) : State :=
  { s with totalDelta := s.totalDelta - b.delta
           totalReward := s.totalReward - b.reward
           totalWithdrawals := s.totalWithdrawals - b.withdrawals
           totalBurn := s.totalBurn - b.burn }

/-- `addToHistory`: store the record in its height's bucket (creating the
bucket at the newest end when the height is new). -/
def addToHistory (s : State) (e : supplyInfo) : State :=
  let bucket := (histGet s.hashHistory e.number).getD []
  { s with hashHistory := histSet s.hashHistory e.number (bucketInsert bucket e.hash e) }

/-- The loop of `cleanHistory`: it deletes oldest pairs until the length is
at most `historyLimit`. -/
def cleanHistoryList (h : History) : History :=
  match h with
  | [] => []
  | a :: t => if (a :: t).length ≤ historyLimit then a :: t else cleanHistoryList t

/-- `cleanHistory` on the state. -/
def cleanHistory (s : State) : State :=
  { s with hashHistory := cleanHistoryList s.hashHistory }

/-- `getSupply`: the record stored for `(hash, number)`, if any. -/
def getSupply (hist : History) (h n : Nat) : Option supplyInfo :=
  (histGet hist n).bind (fun b => bucketFind b h)

/-- Scan of reversed history pairs used by `getSupplyByHash`. -/
def findByHashRev (pairs : List (Nat × Bucket)) (h : Nat) : Option supplyInfo :=
  match pairs with
  | [] => none
  | (_, b) :: rest =>
    match bucketFind b h with
    | some v => some v
    | none => findByHashRev rest h

/-- `getSupplyByHash`: scan buckets from the newest pair to the oldest and
return the first record stored under the given hash. -/
def getSupplyByHash (hist : History) (h : Nat) : Option supplyInfo :=
  findByHashRev hist.reverse h

/-- The errors the aggregator sends on `errCh`, by `fmt.Errorf` site. -/
inductive Err where
  /-- `handleEntry`: "skipping block %d entry. ParentHash check failed". -/
  | parentMismatch (number : Nat)
  /-- `rewindTo`: "cannot rewind to block hash %s, it is not in history". -/
  | rewindHashNotInHistory (hash : Nat)
  /-- `rewindTo`: "cannot rewind to block %d, it is not in history". -/
  | rewindNotInHistory (number : Nat)
  /-- `rewindTo`: "cannot find canonChain hash for block number %d". -/
  | missingCanonical (number : Nat)
  /-- `rewindTo`: "cannot find supply info for block number %d". -/
  | missingSupply (number : Nat)
  /-- `forwardTo`: "cannot forward to block %d, it is not in history". -/
  | forwardNotInHistory (number : Nat)
  /-- `forwardTo`: "cannot find hash %s in history for block %d". -/
  | forwardHashNotFound (hash number : Nat)
  /-- `forwardTo`: "cannot forward to block. want: %d, have: %d". -/
  | forwardIncomplete (number got : Nat)
  /-- Fuel exhaustion marker of the embedding (never reached on the paths
  reasoned about in this file). -/
  | outOfFuel
deriving DecidableEq, Repr

/-- Whether an error is one of the three `NotInHistory` messages of the
specification's error table. -/
def Err.isNotInHistory : Err → Bool
  | .rewindHashNotInHistory _ => true
  | .rewindNotInHistory _ => true
  | .forwardNotInHistory _ => true
  | _ => false

/-- Result of a state-mutating call: final state, errors sent on `errCh`
in order, and whether the call died on a nil-pointer dereference. -/
structure Res where
  st : State
  errs : List Err
  crashed : Bool
deriving DecidableEq, Repr

/-- The walk loop of `rewindTo`:
`for hNumber = s.BlockNumber; hNumber >= number; hNumber--`, with
`hNumber = target + gas` and the caller passing `gas = BlockNumber - target`.
Returns the mutated state and the error that stopped the walk, if any. -/
def rewindWalk (target : Nat) : Nat → State → State × Option Err
  | 0, s =>
    match canonFind s.canonicalChain target with
    | none => (s, some (.missingCanonical target))
    | some hh =>
      match getSupply s.hashHistory hh target with
      | none => (s, some (.missingSupply target))
      | some sup => (setHead s sup, none)
  | gas + 1, s =>
    match canonFind s.canonicalChain (target + (gas + 1)) with
    | none => (s, some (.missingCanonical (target + (gas + 1))))
    | some hh =>
      match getSupply s.hashHistory hh (target + (gas + 1)) with
      | none => (s, some (.missingSupply (target + (gas + 1))))
      | some sup => rewindWalk target gas (sub (setHead s sup) sup)

/-- The backward trace of `forwardTo`: walk the history pairs from newest
to oldest following parent hashes, returning the chain to replay
(oldest-first); the join-point block itself is not included. -/
def forwardTrace (blockNumber target : Nat) (lookupHash : Nat) :
    List (Nat × Bucket) → Except Err (List supplyInfo)
  | [] => .ok []
  | (hN, bucket) :: rest =>
    if target < hN then forwardTrace blockNumber target lookupHash rest
    else
      match bucketFind bucket lookupHash with
      | none => .error (.forwardHashNotFound lookupHash hN)
      | some sup =>
        if hN < target ∧ blockNumber > hN then .ok []
        else (forwardTrace blockNumber target sup.parentHash rest).map (fun l => l ++ [sup])

/-- The error list sent by the rewind walk. -/
def errOpt : Option Err → List Err
  | some e => [e]
  | none => []

mutual

/-- `rewindTo(hash, numberHint)`.  With a zero hint the target is resolved
by hash scan; otherwise the hint is range-checked against the oldest and
newest history keys (a nil dereference when the history is empty).  The
walk itself is `rewindFrom`. -/
def rewindTo : Nat → State → Nat → Nat → Res
  | 0, s, _, _ => ⟨s, [.outOfFuel], false⟩
  | fuel + 1, s, hash, numberHint =>
    if numberHint = 0 then
      match getSupplyByHash s.hashHistory hash with
      | none => ⟨s, [.rewindHashNotInHistory hash], false⟩
      | some lk => rewindFrom fuel s hash lk.number
    else
      match newestKey s.hashHistory, oldestKey s.hashHistory with
      | some nk, some ok =>
        if nk < numberHint ∨ ok > numberHint then
          ⟨s, [.rewindNotInHistory numberHint], false⟩
        else rewindFrom fuel s hash numberHint
      | _, _ => ⟨s, [], true⟩
termination_by structural fuel _ _ _ => fuel

/-- The walk phase of `rewindTo`, after the target `number` is resolved.
When `number` equals the head number the Go code stashes a deferred
`forwardTo(number, hash)` and decrements the walking target, so the walk
rewinds to the parent height first; the deferred forward then runs on
exit — but only when the stashed number is positive and the stashed hash
non-zero — even when the walk stopped on an error. -/
def rewindFrom : Nat → State → Nat → Nat → Res
  | 0, s, _, _ => ⟨s, [.outOfFuel], false⟩
  | fuel + 1, s, hash, number =>
    if number = s.blockNumber then
      let w :=
        if s.blockNumber ≥ u64sub1 number then
          rewindWalk (u64sub1 number) (s.blockNumber - u64sub1 number) s
        else (s, none)
      if 0 < number ∧ hash ≠ 0 then
        let f := forwardTo fuel w.1 number hash
        ⟨f.st, errOpt w.2 ++ f.errs, f.crashed⟩
      else ⟨w.1, errOpt w.2, false⟩
    else
      let w :=
        if s.blockNumber ≥ number then
          rewindWalk number (s.blockNumber - number) s
        else (s, none)
      ⟨w.1, errOpt w.2, false⟩
termination_by structural fuel _ _ _ => fuel

/-- `forwardTo(number, hash)`: range check (a nil dereference when the
history is empty), backward trace, then replay the traced chain. -/
def forwardTo : Nat → State → Nat → Nat → Res
  | 0, s, _, _ => ⟨s, [.outOfFuel], false⟩
  | fuel + 1, s, number, hash =>
    match newestKey s.hashHistory, oldestKey s.hashHistory with
    | some nk, some ok =>
      if nk < number ∨ ok ≥ number then
        ⟨s, [.forwardNotInHistory number], false⟩
      else
        match forwardTrace s.blockNumber number hash s.hashHistory.reverse with
        | .error e => ⟨s, [e], false⟩
        | .ok chain =>
          let r := forwardReplay fuel chain s
          if r.crashed then r
          else if r.st.blockNumber ≠ number then
            ⟨r.st, r.errs ++ [.forwardIncomplete number r.st.blockNumber], false⟩
          else r
    | _, _ => ⟨s, [], true⟩
termination_by structural fuel _ _ _ => fuel

/-- The replay loop of `forwardTo`: rewind below each block when the head
is at or above it, then apply it. -/
def forwardReplay : Nat → List supplyInfo → State → Res
  | _, [], s => ⟨s, [], false⟩
  | 0, _ :: _, s => ⟨s, [.outOfFuel], false⟩
  | fuel + 1, sup :: rest, s =>
    let r1 : Res :=
      if s.blockNumber ≥ sup.number then
        rewindTo fuel s sup.parentHash (u64sub1 sup.number)
      else ⟨s, [], false⟩
    if r1.crashed then r1
    else
      let s2 := add (setHead r1.st sup) sup
      let r2 := forwardReplay fuel rest s2
      ⟨r2.st, r1.errs ++ r2.errs, r2.crashed⟩
termination_by structural fuel _ _ => fuel

end

/-- Fuel given to the reconciliation helpers by the embedding of
`handleEntry`; every execution path used below nests at most 3 deep. -/
def topFuel : Nat := 4096

/-- The Apply phase of `handleEntry`: set head, add totals, store in
history, evict. -/
def applyRecord (s : State) (r : supplyInfo) : State :=
  cleanHistory (addToHistory (add (setHead s r) r) r)

/-- `handleEntry(supply)`: the ingest entry point. -/
def handleEntry (s : State) (r : supplyInfo) : Res :=
  if s.blockNumber = 0 ∧ s.hash = 0 then
    ⟨applyRecord s r, [], false⟩
  else
    let recon : Res :=
      if u64sub1 r.number > s.blockNumber then
        forwardTo topFuel s (u64sub1 r.number) r.parentHash
      else if r.number ≤ s.blockNumber ∨ r.parentHash ≠ s.hash then
        let hint := if r.parentHash ≠ s.hash then 0 else u64sub1 r.number
        rewindTo topFuel s r.parentHash hint
      else ⟨s, [], false⟩
    if recon.crashed then recon
    else
      let s1 := recon.st
      if u64sub1 r.number ≠ s1.blockNumber ∨ r.parentHash ≠ s1.hash then
        ⟨s1, recon.errs ++ [.parentMismatch r.number], false⟩
      else
        ⟨applyRecord s1 r, recon.errs, false⟩

/-- Driver loop (`main.go`): feed records to `handleEntry` in order,
collecting the errors sent on `errCh`; a nil-dereference crash kills the
process and stops the loop. -/
def ingestAll : List supplyInfo → State → State × List Err × Bool
  | [], s => (s, [], false)
  | r :: rest, s =>
    let res := handleEntry s r
    if res.crashed then (res.st, res.errs, true)
    else
      let (s2, errs2, c2) := ingestAll rest res.st
      (s2, res.errs ++ errs2, c2)

/-- `rs` is a gap-free chain continuing a head at `(n, h)`: numbers
increase by one and each record's parent is the previous record's hash. -/
def chainOK : Nat → Nat → List supplyInfo → Prop
  | _, _, [] => True
  | n, h, r :: rest => r.number = n + 1 ∧ r.parentHash = h ∧ chainOK (n + 1) r.hash rest

instance chainOKDecidable : (n h : Nat) → (l : List supplyInfo) → Decidable (chainOK n h l)
  | _, _, [] => .isTrue trivial
  | n, _, r :: rest =>
    have : Decidable (chainOK (n + 1) r.hash rest) := chainOKDecidable (n + 1) r.hash rest
    inferInstanceAs (Decidable (_ ∧ _ ∧ _))

/-- Sum of one supply quantity over a list of records. -/
def sumBy (f : supplyInfo → Int) (l : List supplyInfo) : Int :=
  (l.map f).sum

/-! ## Checkpoint persistence (`SaveState` / `LoadState`)

`PersistedState` embeds `TotalSupply` plus the `file` marker.  The wire
form is `encoding/json` applied to that struct: fields in declaration
order, `uint64` as a decimal number, `common.Hash` as a quoted
`"0x"`-prefixed 64-digit lowercase hex string, `*big.Int` via its
`MarshalJSON` as a (signed) decimal number.  File names are modelled as
raw character lists; the embedding assumes names contain no character
that `encoding/json` escapes (no quote, backslash, angle bracket,
ampersand or control character), which holds for ordinary file names. -/

/-- `PersistedState`: head identity, the four totals, and the name of the
last fully-consumed file. -/
structure PState where
  blockNumber : Nat
  hash : Nat
  parentHash : Nat
  totalDelta : Int
  totalReward : Int
  totalWithdrawals : Int
  totalBurn : Int
  file : List Char
deriving DecidableEq, Repr

/-- The field copies performed by `SaveState` before marshalling. -/
def persistOf (s : State) (file : List Char) : PState :=
  ⟨s.blockNumber, s.hash, s.parentHash,
   s.totalDelta, s.totalReward, s.totalWithdrawals, s.totalBurn, file⟩

/-- The field copies performed by `LoadState` after unmarshalling: head
and totals only; history and canonical index are untouched. -/
def loadStateData (s : State) (p : PState) : State :=
  { s with blockNumber := p.blockNumber, hash := p.hash, parentHash := p.parentHash
           totalDelta := p.totalDelta, totalReward := p.totalReward
           totalWithdrawals := p.totalWithdrawals, totalBurn := p.totalBurn }

/-- Decimal digit character. -/
def digitChar (d : Nat) : Char :=
  match d with
  | 0 => '0' | 1 => '1' | 2 => '2' | 3 => '3' | 4 => '4'
  | 5 => '5' | 6 => '6' | 7 => '7' | 8 => '8' | _ => '9'

/-- Lowercase hexadecimal digit character. -/
def hexChar (d : Nat) : Char :=
  match d with
  | 0 => '0' | 1 => '1' | 2 => '2' | 3 => '3' | 4 => '4'
  | 5 => '5' | 6 => '6' | 7 => '7' | 8 => '8' | 9 => '9'
  | 10 => 'a' | 11 => 'b' | 12 => 'c' | 13 => 'd' | 14 => 'e' | _ => 'f'

/-- Decimal digits of `n`, most significant first (fuel-driven so that it
computes by kernel reduction; `fuel > n` always suffices). -/
def natDecAux : Nat → Nat → List Char
  | 0, _ => []
  | fuel + 1, n => if n < 10 then [digitChar n] else natDecAux fuel (n / 10) ++ [digitChar (n % 10)]

/-- Decimal rendering of a `Nat` (Go `%d` / `big.Int` decimal). -/
def natDec (n : Nat) : List Char := natDecAux (n + 1) n

/-- Decimal rendering of an `Int` (`big.Int.MarshalJSON`). -/
def intDec (i : Int) : List Char :=
  if i < 0 then '-' :: natDec i.natAbs else natDec i.natAbs

/-- Hexadecimal digits of `n`, most significant first. -/
def natHexAux : Nat → Nat → List Char
  | 0, _ => []
  | fuel + 1, n => if n < 16 then [hexChar n] else natHexAux fuel (n / 16) ++ [hexChar (n % 16)]

/-- Hexadecimal rendering of a `Nat`. -/
def natHex (n : Nat) : List Char := natHexAux (n + 1) n

/-- `common.Hash.MarshalText` body: 32 bytes as exactly 64 lowercase hex
digits, zero-padded on the left. -/
def hashHex (n : Nat) : List Char :=
  List.replicate (64 - (natHex n).length) '0' ++ natHex n

/-- `json.Marshal(PersistedState)`: the checkpoint byte string. -/
def encodePersisted (p : PState) : List Char :=
  "\x7b\"blockNumber\":".data ++ natDec p.blockNumber
  ++ ",\"hash\":\"0x".data ++ hashHex p.hash
  ++ "\",\"parentHash\":\"0x".data ++ hashHex p.parentHash
  ++ "\",\"totalDelta\":".data ++ intDec p.totalDelta
  ++ ",\"totalReward\":".data ++ intDec p.totalReward
  ++ ",\"totalWithdrawals\":".data ++ intDec p.totalWithdrawals
  ++ ",\"totalBurn\":".data ++ intDec p.totalBurn
  ++ ",\"file\":\"".data ++ p.file ++ "\"\x7d".data

/-- `SaveState`: copy the fields and marshal. -/
def saveState (s : State) (file : List Char) : List Char :=
  encodePersisted (persistOf s file)

/-- Decimal digit test. -/
def isDecDigit (c : Char) : Bool :=
  match c with
  | '0' | '1' | '2' | '3' | '4' | '5' | '6' | '7' | '8' | '9' => true
  | _ => false

/-- Hexadecimal digit test (lowercase, as produced by `hashHex`). -/
def isHexDigit (c : Char) : Bool :=
  match c with
  | '0' | '1' | '2' | '3' | '4' | '5' | '6' | '7' | '8' | '9' => true
  | 'a' | 'b' | 'c' | 'd' | 'e' | 'f' => true
  | _ => false

/-- Value of a decimal digit character. -/
def decDigitVal (c : Char) : Nat :=
  match c with
  | '0' => 0 | '1' => 1 | '2' => 2 | '3' => 3 | '4' => 4
  | '5' => 5 | '6' => 6 | '7' => 7 | '8' => 8 | '9' => 9
  | _ => 0

/-- Value of a hexadecimal digit character. -/
def hexDigitVal (c : Char) : Nat :=
  match c with
  | '0' => 0 | '1' => 1 | '2' => 2 | '3' => 3 | '4' => 4
  | '5' => 5 | '6' => 6 | '7' => 7 | '8' => 8 | '9' => 9
  | 'a' => 10 | 'b' => 11 | 'c' => 12 | 'd' => 13 | 'e' => 14 | 'f' => 15
  | _ => 0

/-- Numeric value of a decimal digit string. -/
def decVal (l : List Char) : Nat :=
  l.foldl (fun acc c => 10 * acc + decDigitVal c) 0

/-- Numeric value of a hexadecimal digit string. -/
def hexVal (l : List Char) : Nat :=
  l.foldl (fun acc c => 16 * acc + hexDigitVal c) 0

/-- Consume an expected literal from the front of the input. -/
def dropLit : List Char → List Char → Option (List Char)
  | [], l => some l
  | _ :: _, [] => none
  | c :: cs, x :: xs => if x = c then dropLit cs xs else none

/-- Parse a decimal number (one or more digits). -/
def parseNatPart (l : List Char) : Option (Nat × List Char) :=
  match l.takeWhile isDecDigit with
  | [] => none
  | ds => some (decVal ds, l.dropWhile isDecDigit)

/-- Parse an optionally `-`-signed decimal number. -/
def parseIntPart (l : List Char) : Option (Int × List Char) :=
  match l with
  | '-' :: rest => (parseNatPart rest).map (fun p => (-(p.1 : Int), p.2))
  | _ => (parseNatPart l).map (fun p => ((p.1 : Int), p.2))

/-- Parse exactly 64 hexadecimal digits. -/
def parseHash (l : List Char) : Option (Nat × List Char) :=
  if 64 ≤ l.length ∧ (l.take 64).all isHexDigit then
    some (hexVal (l.take 64), l.drop 64)
  else none

/-- Parse the file-name string up to the closing quote, requiring the
object to end right after it. -/
def parseFileEnd (l : List Char) : Option (List Char) :=
  match l.dropWhile (fun c => !(c = '"')) with
  | '"' :: '\x7d' :: [] => some (l.takeWhile (fun c => !(c = '"')))
  | _ => none

/-- `json.Unmarshal` into `PersistedState`, specialised to the canonical
field order and encodings that `json.Marshal` produces. -/
def decodePersisted (l : List Char) : Option PState :=
  (dropLit "\x7b\"blockNumber\":".data l).bind fun l1 =>
  (parseNatPart l1).bind fun (bn, l2) =>
  (dropLit ",\"hash\":\"0x".data l2).bind fun l3 =>
  (parseHash l3).bind fun (h, l4) =>
  (dropLit "\",\"parentHash\":\"0x".data l4).bind fun l5 =>
  (parseHash l5).bind fun (ph, l6) =>
  (dropLit "\",\"totalDelta\":".data l6).bind fun l7 =>
  (parseIntPart l7).bind fun (d, l8) =>
  (dropLit ",\"totalReward\":".data l8).bind fun l9 =>
  (parseIntPart l9).bind fun (rw, l10) =>
  (dropLit ",\"totalWithdrawals\":".data l10).bind fun l11 =>
  (parseIntPart l11).bind fun (wd, l12) =>
  (dropLit ",\"totalBurn\":".data l12).bind fun l13 =>
  (parseIntPart l13).bind fun (bu, l14) =>
  (dropLit ",\"file\":\"".data l14).bind fun l15 =>
  (parseFileEnd l15).map fun f => ⟨bn, h, ph, d, rw, wd, bu, f⟩

/-- `LoadState`: unmarshal the bytes, install head and totals, return the
last-parsed-file marker. -/
def loadState (s : State) (bytes : List Char) : Option (State × List Char) :=
  (decodePersisted bytes).map fun p => (loadStateData s p, p.file)

/-- Whether `pat` occurs at the front of the input. -/
def startsWithSeq : List Char → List Char → Bool
  | [], _ => true
  | _ :: _, [] => false
  | c :: cs, x :: xs => x = c && startsWithSeq cs xs

/-- Whether `pat` occurs anywhere in the input. -/
def containsSeq (pat : List Char) : List Char → Bool
  | [] => startsWithSeq pat []
  | x :: xs => startsWithSeq pat (x :: xs) || containsSeq pat xs

/-! ## Concrete scenario data -/

/-- S3 genesis block `h₀` (reward 1; all quantities set to the reward). -/
def c1b0 : supplyInfo := ⟨0, 100, 0, 1, 1, 1, 1⟩

/-- S3 block `h₁` of the losing chain. -/
def c1b1 : supplyInfo := ⟨1, 1, 100, 1, 1, 1, 1⟩

/-- S3 block `h₁'` of the winning chain (reward 2). -/
def c1b1w : supplyInfo := ⟨1, 11, 100, 2, 2, 2, 2⟩

/-- S3 block `h₂`. -/
def c1b2 : supplyInfo := ⟨2, 2, 1, 1, 1, 1, 1⟩

/-- S3 block `h₂'`. -/
def c1b2w : supplyInfo := ⟨2, 22, 11, 2, 2, 2, 2⟩

/-- S3 block `h₃`. -/
def c1b3 : supplyInfo := ⟨3, 3, 2, 1, 1, 1, 1⟩

/-- S3 block `h₃'`, the ingested record. -/
def c1b3w : supplyInfo := ⟨3, 33, 22, 2, 2, 2, 2⟩

/-- S3 pre-state: head `(1, h₁, h₀)`, totals 2, both chains in history,
canonical index `{0 ↦ h₀, 1 ↦ h₁}`. -/
def c1pre : State :=
  { blockNumber := 1, hash := 1, parentHash := 100
    totalDelta := 2, totalReward := 2, totalWithdrawals := 2, totalBurn := 2
    canonicalChain := [(0, 100), (1, 1)]
    hashHistory := [(0, [(100, c1b0)]), (1, [(1, c1b1), (11, c1b1w)]),
                    (2, [(2, c1b2), (22, c1b2w)]), (3, [(3, c1b3), (33, c1b3w)])] }

/-- S2 canonical blocks 0–3, reward 1 each. -/
def c2b (i : Nat) : supplyInfo := ⟨i, 100 + i, if i = 0 then 0 else 99 + i, 1, 1, 1, 1⟩

/-- S2 pre-state: head `(3, h₃, h₂)`, totals 4, chain 0–3 in history and
canonical index. -/
def c2pre : State :=
  { blockNumber := 3, hash := 103, parentHash := 102
    totalDelta := 4, totalReward := 4, totalWithdrawals := 4, totalBurn := 4
    canonicalChain := [(0, 100), (1, 101), (2, 102), (3, 103)]
    hashHistory := [(0, [(100, c2b 0)]), (1, [(101, c2b 1)]),
                    (2, [(102, c2b 2)]), (3, [(103, c2b 3)])] }

/-- S2 replacement sibling `(3, h₃', h₂)` with reward 2. -/
def c2rec : supplyInfo := ⟨3, 203, 102, 2, 2, 2, 2⟩

/-- C3 witness chain: two linked records from the fresh state. -/
def c3r1 : supplyInfo := ⟨1, 5, 0, 1, 1, 1, 1⟩

/-- C3 witness chain: successor of `c3r1`. -/
def c3r2 : supplyInfo := ⟨2, 6, 5, 2, 2, 2, 2⟩

/-- The monotone record family of scenario S4: block `i` has hash `i + 1`,
parent `i` (the previous record's hash), and unit quantities. -/
def mrec (i : Nat) : supplyInfo := ⟨i, i + 1, i, 1, 1, 1, 1⟩

/-- The state after ingesting `mrec 0, …, mrec n` in order from fresh. -/
def iterIngest : Nat → State
  | 0 => (handleEntry newState (mrec 0)).st
  | n + 1 => (handleEntry (iterIngest n) (mrec (n + 1))).st

/-- S4 reorg record: parent `6` is the hash of evicted block 5. -/
def c4rec : supplyInfo := ⟨6, 5000, 6, 1, 1, 1, 1⟩

/-- C5 counterexample: a checkpoint-style initialised state with empty
history. -/
def c5empty : State :=
  { blockNumber := 5, hash := 55, parentHash := 44
    totalDelta := 9, totalReward := 9, totalWithdrawals := 9, totalBurn := 9
    canonicalChain := [], hashHistory := [] }

/-- C5 counterexample record: a forward gap whose parent is nowhere. -/
def c5gap : supplyInfo := ⟨7, 77, 66, 1, 1, 1, 1⟩

/-- C5 witness state: head `(2, 12, 11)` with blocks 0–2 in history. -/
def c5pre : State :=
  { blockNumber := 2, hash := 12, parentHash := 11
    totalDelta := 3, totalReward := 3, totalWithdrawals := 3, totalBurn := 3
    canonicalChain := [(0, 10), (1, 11), (2, 12)]
    hashHistory := [(0, [(10, ⟨0, 10, 0, 1, 1, 1, 1⟩)]),
                    (1, [(11, ⟨1, 11, 10, 1, 1, 1, 1⟩)]),
                    (2, [(12, ⟨2, 12, 11, 1, 1, 1, 1⟩)])] }

/-- C5 witness record: unknown parent `99`. -/
def c5bad : supplyInfo := ⟨3, 13, 99, 1, 1, 1, 1⟩

/-- C5 witness successor record after the rejected one. -/
def c5good : supplyInfo := ⟨3, 14, 12, 1, 1, 1, 1⟩

/-- C6 blocks: canonical chain 0–1. -/
def c6b0 : supplyInfo := ⟨0, 100, 0, 1, 1, 1, 1⟩

/-- C6 head block at height 1. -/
def c6b1 : supplyInfo := ⟨1, 10, 100, 1, 1, 1, 1⟩

/-- C6 counterexample state: head `(1, 10, 100)`. -/
def c6pre : State :=
  { blockNumber := 1, hash := 10, parentHash := 100
    totalDelta := 2, totalReward := 2, totalWithdrawals := 2, totalBurn := 2
    canonicalChain := [(0, 100), (1, 10)]
    hashHistory := [(0, [(100, c6b0)]), (1, [(10, c6b1)])] }

/-- C6 witness state: S2-style head `(3, 103, 102)` with a competing
sibling `(3, 203, 102)` of reward 2 stored at height 3. -/
def c6wpre : State :=
  { blockNumber := 3, hash := 103, parentHash := 102
    totalDelta := 4, totalReward := 4, totalWithdrawals := 4, totalBurn := 4
    canonicalChain := [(0, 100), (1, 101), (2, 102), (3, 103)]
    hashHistory := [(0, [(100, c2b 0)]), (1, [(101, c2b 1)]),
                    (2, [(102, c2b 2)]), (3, [(103, c2b 3), (203, ⟨3, 203, 102, 2, 2, 2, 2⟩)])] }

/-- C7 counterexample checkpoint: head `(5, 55, 44)`, totals 9. -/
def c7cp : PState := ⟨5, 55, 44, 9, 9, 9, 9, "supply.jsonl".data⟩

/-- C7 counterexample record: a forward gap relative to the restored head. -/
def c7gap : supplyInfo := ⟨8, 88, 77, 1, 1, 1, 1⟩

/-- C7 witness record: wrong parent at the successor height. -/
def c7bad : supplyInfo := ⟨6, 66, 22, 1, 1, 1, 1⟩

/-- S6 record: reward 5, burn 8, hence delta −3, at height 0. -/
def c8rec : supplyInfo := ⟨0, 7, 0, -3, 5, 0, 8⟩

/-- S6 state: the fresh state after ingesting `c8rec`. -/
def c8state : State := (handleEntry newState c8rec).st

/-- C9 witness state: single block with negative delta (reward 1,
burn 4). -/
def c9state : State := (handleEntry newState ⟨0, 3, 0, -3, 1, 0, 4⟩).st

/-- C10 counterexample: a history pair stored at height `2^64 − 1` whose
block's hash is the ingested record's parent. -/
def c10bP : supplyInfo := ⟨U64MAX, 70, 50, 1, 1, 1, 1⟩

/-- C10 counterexample: the ordinary block at height 5. -/
def c10b5 : supplyInfo := ⟨5, 50, 40, 1, 1, 1, 1⟩

/-- C10 counterexample state: initialised head `(6, 600)`, non-empty
history containing heights `5` and `2^64 − 1`. -/
def c10pre : State :=
  { blockNumber := 6, hash := 600, parentHash := 50
    totalDelta := 0, totalReward := 0, totalWithdrawals := 0, totalBurn := 0
    canonicalChain := [(6, 600)]
    hashHistory := [(5, [(50, c10b5)]), (U64MAX, [(70, c10bP)])] }

/-- C10 counterexample record: height 0, parent the hash stored at height
`2^64 − 1`. -/
def c10rec : supplyInfo := ⟨0, 90, 70, 1, 1, 1, 1⟩

/-- C10 witness state: an ordinary initialised state (head `(2, 42, 41)`,
history heights 0–2, all keys far below `2^64 − 1`). -/
def c10wpre : State :=
  { blockNumber := 2, hash := 42, parentHash := 41
    totalDelta := 3, totalReward := 3, totalWithdrawals := 3, totalBurn := 3
    canonicalChain := [(0, 40), (1, 41), (2, 42)]
    hashHistory := [(0, [(40, ⟨0, 40, 0, 1, 1, 1, 1⟩)]),
                    (1, [(41, ⟨1, 41, 40, 1, 1, 1, 1⟩)]),
                    (2, [(42, ⟨2, 42, 41, 1, 1, 1, 1⟩)])] }

/-! ## Basic lemmas -/

theorem u64sub1_succ (n : Nat) : u64sub1 (n + 1) = n := by
  simp [u64sub1]

theorem u64sub1_of_ne_zero {n : Nat} (h : n ≠ 0) : u64sub1 n = n - 1 := by
  simp [u64sub1, h]

theorem setHead_hashHistory (s : State) (b : supplyInfo) :
    (setHead s b).hashHistory = s.hashHistory := rfl

theorem add_hashHistory (s : State) (b : supplyInfo) :
    (add s b).hashHistory = s.hashHistory := rfl

theorem sub_hashHistory (s : State) (b : supplyInfo) :
    (sub s b).hashHistory = s.hashHistory := rfl

theorem rewindWalk_hashHistory (target : Nat) :
    ∀ (gas : Nat) (s : State), (rewindWalk target gas s).1.hashHistory = s.hashHistory := by
  intro gas
  induction gas with
  | zero =>
    intro s
    simp only [rewindWalk]
    split
    · rfl
    · split
      · rfl
      · rfl
  | succ g ih =>
    intro s
    simp only [rewindWalk]
    split
    · rfl
    · split
      · rfl
      · exact ih _

/-- Neither `rewindTo` nor `forwardTo` (nor the replay loop) touches the
history: only the Apply phase of `handleEntry` does. -/
theorem recon_hashHistory :
    ∀ fuel : Nat,
      (∀ (s : State) (h n : Nat), (rewindTo fuel s h n).st.hashHistory = s.hashHistory) ∧
      (∀ (s : State) (h n : Nat), (rewindFrom fuel s h n).st.hashHistory = s.hashHistory) ∧
      (∀ (s : State) (n h : Nat), (forwardTo fuel s n h).st.hashHistory = s.hashHistory) ∧
      (∀ (l : List supplyInfo) (s : State),
        (forwardReplay fuel l s).st.hashHistory = s.hashHistory) := by
  intro fuel
  induction fuel with
  | zero =>
    refine ⟨fun s h n => rfl, fun s h n => rfl, fun s n h => rfl, fun l s => ?_⟩
    cases l <;> rfl
  | succ f ih =>
    obtain ⟨ihr, ihw, ihf, ihp⟩ := ih
    refine ⟨?_, ?_, ?_, ?_⟩
    · intro s h n
      simp only [rewindTo]
      split
      · split
        · rfl
        · exact ihw _ _ _
      · split
        · split
          · rfl
          · exact ihw _ _ _
        · rfl
    · intro s h n
      simp only [rewindFrom]
      split
      · split
        · simp only [Res.st, ihf, rewindWalk_hashHistory]
          split
          · rw [rewindWalk_hashHistory]
          · rfl
        · simp only [Res.st]
          split
          · rw [rewindWalk_hashHistory]
          · rfl
      · simp only [Res.st]
        split
        · rw [rewindWalk_hashHistory]
        · rfl
    · intro s n h
      simp only [forwardTo]
      split
      · split
        · rfl
        · split
          · rfl
          · split
            · exact ihp _ _
            · split
              · simp only [Res.st, ihp]
              · exact ihp _ _
      · rfl
    · intro l s
      cases l with
      | nil => rfl
      | cons sup rest =>
        simp only [forwardReplay]
        split
        · split
          · exact ihr _ _ _
          · simp only [Res.st, ihp, add_hashHistory, setHead_hashHistory, ihr]
        · split
          · rfl
          · simp only [Res.st, ihp, add_hashHistory, setHead_hashHistory]

/-! ## Claim C1: deep reorg via the forward walk (scenario S3) -/

/-- C1: from head `(1, h₁)` with totals.reward 2, two competing chains to
height 3 in history and canonical index `{0 ↦ h₀, 1 ↦ h₁}`, ingesting
`(3, h₃', parent h₂')` succeeds, leaves head `(3, h₃')`, and leaves
totals.reward = 7 (the walk rewinds `h₁`, replays `h₁'` and `h₂'`, and the
Apply phase adds `h₃'`). -/
theorem c1_deep_reorg_forward :
    (handleEntry c1pre c1b3w).errs = [] ∧
    (handleEntry c1pre c1b3w).crashed = false ∧
    (handleEntry c1pre c1b3w).st.blockNumber = 3 ∧
    (handleEntry c1pre c1b3w).st.hash = 33 ∧
    (handleEntry c1pre c1b3w).st.totalReward = 7 := by
  decide

/-! ## Counterexamples -/

/-- C5 counterexample: on an initialised state whose history is empty
(exactly the state a checkpoint restore produces), a record whose unknown
parent makes it a forward gap does not produce `ParentMismatch`: the
range check dereferences the nil newest pair and the process crashes with
no error sent. -/
theorem c5_counterexample :
    c5empty.blockNumber = 5 ∧ c5empty.hash ≠ 0 ∧
    c5gap.parentHash ≠ c5empty.hash ∧
    (∀ p ∈ c5empty.hashHistory, bucketFind p.2 c5gap.parentHash = none) ∧
    (handleEntry c5empty c5gap).crashed = true ∧
    (handleEntry c5empty c5gap).errs = [] := by
  decide

/-- C6 counterexample: `rewindTo(0x0, 1)` on a head at height 1 resolves
its target number to the head number, but because the target hash is the
zero hash the deferred `forwardTo` never runs: the head is left at the
parent height 0, `canonical[1]` keeps the old hash instead of the target
hash, and no replacement effect is applied. -/
theorem c6_counterexample :
    c6pre.blockNumber = 1 ∧
    (rewindTo topFuel c6pre 0 1).errs = [] ∧
    (rewindTo topFuel c6pre 0 1).st.blockNumber = 0 ∧
    canonFind (rewindTo topFuel c6pre 0 1).st.canonicalChain 1 = some 10 ∧
    (rewindTo topFuel c6pre 0 1).st.totalReward = 1 := by
  decide

/-- C7 counterexample: after restoring the checkpoint `(5, 55, 44)`, a
forward-gap record does not fail with `NotInHistory`: `forwardTo`
dereferences the nil newest pair of the empty history and the process
crashes with no error sent at all. -/
theorem c7_counterexample :
    (loadStateData newState c7cp).hashHistory = [] ∧
    (handleEntry (loadStateData newState c7cp) c7gap).crashed = true ∧
    (handleEntry (loadStateData newState c7cp) c7gap).errs = [] := by
  decide

set_option maxRecDepth 10000 in
/-- C8 counterexample: the encoded checkpoint of the reward-5/burn-8 state
contains no `"sign"` field at all, and its delta is the plain signed
decimal `-3` rather than a hex-encoded magnitude: the wire format has the
four `TotalSupply` totals, not seven hex-encoded ones. -/
theorem c8_counterexample :
    containsSeq "\"sign\"".data (saveState c8state "state.json".data) = false ∧
    containsSeq "\"totalDelta\":-3".data (saveState c8state "state.json".data) = true ∧
    containsSeq "\"genesisAlloc\"".data (saveState c8state "state.json".data) = false := by
  decide

/-- C10 counterexample: an initialised state with head at height 6 and a
non-empty history that stores a pair at height `2^64 − 1` whose block hash
is the record's parent: ingesting a height-0 record is classified as a
forward gap to `2^64 − 1`, the range check passes, the forward walk
succeeds, and the record IS applied with no error. -/
theorem c10_counterexample :
    c10pre.blockNumber = 6 ∧ c10pre.hashHistory ≠ [] ∧ c10rec.number = 0 ∧
    (handleEntry c10pre c10rec).errs = [] ∧
    (handleEntry c10pre c10rec).crashed = false ∧
    (handleEntry c10pre c10rec).st.blockNumber = 0 ∧
    (handleEntry c10pre c10rec).st.hash = 90 ∧
    (handleEntry c10pre c10rec).st.totalReward = 2 := by
  decide

/-! ## General claim theorems -/

theorem canonFind_canonInsert_ne (c : List (Nat × Nat)) (k v m : Nat) (h : m ≠ k) :
    canonFind (canonInsert c k v) m = canonFind c m := by
  induction c with
  | nil =>
    simp only [canonInsert, canonFind]
    rw [if_neg (fun hh => h hh.symm)]
  | cons p rest ih =>
    obtain ⟨a, b⟩ := p
    by_cases hak : a = k
    · subst hak
      simp only [canonInsert, if_pos rfl, canonFind]
      rw [if_neg (fun hh => h hh.symm), if_neg (fun hh => h hh.symm)]
    · simp only [canonInsert, if_neg hak, canonFind]
      split
      · rfl
      · exact ih

theorem topFuel_eq : topFuel = 4095 + 1 := rfl

/-- C2: head replacement at the current height.  For every initialised
state whose head is `(n, h)` (`n ≥ 1`) with parent `p ≠ h`, where the
canonical index maps `n ↦ h` and `n − 1 ↦ p`, history stores the old head
block under `(n, h)` and the parent block under `(n − 1, p)`, and the
hash scan resolves `p` at height `n − 1`, ingesting a record `(n, h', p)`
with `h' ≠ h` succeeds with head `(n, h')` and every totals field equal to
its old value minus the old head block's effect plus the new record's
effect. -/
theorem c2_head_replacement
    (s : State) (r bPar bOld bPar2 : supplyInfo)
    (hn : 1 ≤ s.blockNumber)
    (hrn : r.number = s.blockNumber)
    (hrp : r.parentHash = s.parentHash)
    (_hrh : r.hash ≠ s.hash)
    (hph : s.parentHash ≠ s.hash)
    (hfind : getSupplyByHash s.hashHistory s.parentHash = some bPar)
    (hbn : bPar.number = s.blockNumber - 1)
    (hcanN : canonFind s.canonicalChain s.blockNumber = some s.hash)
    (hold : getSupply s.hashHistory s.hash s.blockNumber = some bOld)
    (holdn : bOld.number = s.blockNumber)
    (_holdh : bOld.hash = s.hash)
    (hcanP : canonFind s.canonicalChain (s.blockNumber - 1) = some s.parentHash)
    (hpar2 : getSupply s.hashHistory s.parentHash (s.blockNumber - 1) = some bPar2)
    (hpar2n : bPar2.number = s.blockNumber - 1)
    (hpar2h : bPar2.hash = s.parentHash) :
    (handleEntry s r).errs = [] ∧ (handleEntry s r).crashed = false ∧
    (handleEntry s r).st.blockNumber = r.number ∧
    (handleEntry s r).st.hash = r.hash ∧
    (handleEntry s r).st.parentHash = r.parentHash ∧
    (handleEntry s r).st.totalDelta = s.totalDelta - bOld.delta + r.delta ∧
    (handleEntry s r).st.totalReward = s.totalReward - bOld.reward + r.reward ∧
    (handleEntry s r).st.totalWithdrawals =
      s.totalWithdrawals - bOld.withdrawals + r.withdrawals ∧
    (handleEntry s r).st.totalBurn = s.totalBurn - bOld.burn + r.burn := by
  have hbn0 : s.blockNumber ≠ 0 := by omega
  have hni : ¬(s.blockNumber = 0 ∧ s.hash = 0) := fun hh => hbn0 hh.1
  have hsub : u64sub1 r.number = s.blockNumber - 1 := by
    rw [hrn, u64sub1_of_ne_zero hbn0]
  have hgt : ¬(u64sub1 r.number > s.blockNumber) := by omega
  have hor : r.number ≤ s.blockNumber ∨ r.parentHash ≠ s.hash := Or.inl (le_of_eq hrn)
  have hphr : r.parentHash ≠ s.hash := by rw [hrp]; exact hph
  have hw : rewindWalk (s.blockNumber - 1) 1 s
      = (setHead (sub (setHead s bOld) bOld) bPar2, none) := by
    have h1 : s.blockNumber - 1 + (0 + 1) = s.blockNumber := by omega
    have hcanP' : canonFind (sub (setHead s bOld) bOld).canonicalChain (s.blockNumber - 1)
        = some s.parentHash := by
      show canonFind (canonInsert s.canonicalChain bOld.number bOld.hash) (s.blockNumber - 1)
        = some s.parentHash
      rw [holdn, canonFind_canonInsert_ne _ _ _ _ (by omega), hcanP]
    have hpar2' : getSupply (sub (setHead s bOld) bOld).hashHistory s.parentHash
        (s.blockNumber - 1) = some bPar2 := hpar2
    simp only [rewindWalk, h1, hcanN, hold, hcanP', hpar2']
  have hrec : rewindTo topFuel s r.parentHash 0
      = ⟨setHead (sub (setHead s bOld) bOld) bPar2, [], false⟩ := by
    rw [topFuel_eq]
    simp only [rewindTo, if_pos rfl, hrp, hfind]
    show rewindFrom 4095 s s.parentHash bPar.number = _
    have h4095 : (4095 : Nat) = 4094 + 1 := rfl
    rw [h4095]
    simp only [rewindFrom, hbn]
    rw [if_neg (by omega)]
    rw [if_pos (by omega)]
    have hgas : s.blockNumber - (s.blockNumber - 1) = 1 := by omega
    rw [hgas, hw]
    rfl
  have hs1bn : (setHead (sub (setHead s bOld) bOld) bPar2).blockNumber
      = s.blockNumber - 1 := by simp [setHead, sub, hpar2n]
  have hs1h : (setHead (sub (setHead s bOld) bOld) bPar2).hash = s.parentHash := by
    simp [setHead, sub, hpar2h]
  have hchk : ¬(u64sub1 r.number ≠ (setHead (sub (setHead s bOld) bOld) bPar2).blockNumber
      ∨ r.parentHash ≠ (setHead (sub (setHead s bOld) bOld) bPar2).hash) := by
    rw [hs1bn, hs1h, hsub, hrp]
    simp
  simp only [handleEntry, if_neg hni, if_neg hgt, if_pos hor, if_pos hphr, hrec]
  simp only [Bool.false_eq_true, if_false, if_neg hchk]
  refine ⟨?_, ?_, ?_, ?_, ?_, ?_, ?_, ?_, ?_⟩ <;>
    simp [applyRecord, cleanHistory, addToHistory, add, sub, setHead]

theorem c2_head_replacement_witness :
    (handleEntry c2pre c2rec).errs = [] ∧ (handleEntry c2pre c2rec).crashed = false ∧
    (handleEntry c2pre c2rec).st.blockNumber = c2rec.number ∧
    (handleEntry c2pre c2rec).st.hash = c2rec.hash ∧
    (handleEntry c2pre c2rec).st.parentHash = c2rec.parentHash ∧
    (handleEntry c2pre c2rec).st.totalDelta = c2pre.totalDelta - (c2b 3).delta + c2rec.delta ∧
    (handleEntry c2pre c2rec).st.totalReward = c2pre.totalReward - (c2b 3).reward + c2rec.reward ∧
    (handleEntry c2pre c2rec).st.totalWithdrawals =
      c2pre.totalWithdrawals - (c2b 3).withdrawals + c2rec.withdrawals ∧
    (handleEntry c2pre c2rec).st.totalBurn = c2pre.totalBurn - (c2b 3).burn + c2rec.burn :=
  c2_head_replacement c2pre c2rec (c2b 2) (c2b 3) (c2b 2)
    (by decide) (by decide) (by decide) (by decide) (by decide) (by decide) (by decide)
    (by decide) (by decide) (by decide) (by decide) (by decide) (by decide) (by decide)
    (by decide)

theorem findByHashRev_none (h : Nat) :
    ∀ l : List (Nat × Bucket), (∀ p ∈ l, bucketFind p.2 h = none) →
      findByHashRev l h = none := by
  intro l
  induction l with
  | nil => intro _; rfl
  | cons a rest ih =>
    intro hall
    obtain ⟨k, b⟩ := a
    simp only [findByHashRev]
    rw [hall (k, b) (List.mem_cons_self _ _)]
    exact ih fun p hp => hall p (List.mem_cons_of_mem _ hp)

theorem getSupplyByHash_none (hist : History) (h : Nat)
    (hall : ∀ p ∈ hist, bucketFind p.2 h = none) :
    getSupplyByHash hist h = none := by
  unfold getSupplyByHash
  exact findByHashRev_none h hist.reverse fun p hp =>
    hall p (List.mem_reverse.mp hp)

theorem forwardTrace_absent (bn n h : Nat) :
    ∀ l : List (Nat × Bucket), (∀ p ∈ l, bucketFind p.2 h = none) →
      forwardTrace bn n h l = .ok [] ∨
      ∃ hN, forwardTrace bn n h l = .error (.forwardHashNotFound h hN) := by
  intro l
  induction l with
  | nil => intro _; exact Or.inl rfl
  | cons a rest ih =>
    intro hall
    obtain ⟨hN, b⟩ := a
    simp only [forwardTrace]
    split
    · exact ih fun p hp => hall p (List.mem_cons_of_mem _ hp)
    · rw [hall (hN, b) (List.mem_cons_self _ _)]
      exact Or.inr ⟨hN, rfl⟩

theorem keys_of_ne_nil (hist : History) (hne : hist ≠ []) :
    ∃ nk ok, newestKey hist = some nk ∧ oldestKey hist = some ok := by
  cases hist with
  | nil => exact absurd rfl hne
  | cons a t =>
    refine ⟨((a :: t).getLast (by simp)).1, a.1, ?_, rfl⟩
    simp [newestKey, List.getLast?_eq_getLast]

theorem handleEntry_succ (s : State) (r : supplyInfo)
    (hni : ¬(s.blockNumber = 0 ∧ s.hash = 0))
    (h1 : r.number = s.blockNumber + 1)
    (h2 : r.parentHash = s.hash) :
    handleEntry s r = ⟨applyRecord s r, [], false⟩ := by
  have hs : u64sub1 r.number = s.blockNumber := by rw [h1, u64sub1_succ]
  have hgt : ¬(u64sub1 r.number > s.blockNumber) := by omega
  have hcond : ¬(r.number ≤ s.blockNumber ∨ r.parentHash ≠ s.hash) := by
    push_neg
    exact ⟨by omega, h2⟩
  have hchk : ¬(u64sub1 r.number ≠ s.blockNumber ∨ r.parentHash ≠ s.hash) := by
    push_neg
    exact ⟨hs, h2⟩
  simp only [handleEntry, if_neg hni, if_neg hgt, if_neg hcond, if_neg hchk]
  rfl

/-- C5 (amended): for every initialised state with NON-EMPTY history,
ingesting a record whose parent differs from the head hash and occurs
nowhere in history leaves the state unchanged, does not crash, and ends
with the `ParentMismatch` error; a subsequent clean successor of the
(unchanged) head then succeeds.  (The non-empty-history hypothesis is
forced by `c5_counterexample`: with empty history a gap record crashes on
a nil dereference instead.) -/
theorem c5_parent_mismatch
    (s : State) (r : supplyInfo)
    (hni : ¬(s.blockNumber = 0 ∧ s.hash = 0))
    (hne : s.hashHistory ≠ [])
    (hp : r.parentHash ≠ s.hash)
    (habs : ∀ p ∈ s.hashHistory, bucketFind p.2 r.parentHash = none) :
    (handleEntry s r).st = s ∧ (handleEntry s r).crashed = false ∧
    (handleEntry s r).errs.getLast? = some (.parentMismatch r.number) ∧
    (∀ r2 : supplyInfo, r2.number = s.blockNumber + 1 → r2.parentHash = s.hash →
      (handleEntry s r2).errs = [] ∧ (handleEntry s r2).crashed = false ∧
      (handleEntry s r2).st.blockNumber = r2.number ∧
      (handleEntry s r2).st.hash = r2.hash) := by
  have hsucc : ∀ r2 : supplyInfo, r2.number = s.blockNumber + 1 → r2.parentHash = s.hash →
      (handleEntry s r2).errs = [] ∧ (handleEntry s r2).crashed = false ∧
      (handleEntry s r2).st.blockNumber = r2.number ∧
      (handleEntry s r2).st.hash = r2.hash := by
    intro r2 h1 h2
    rw [handleEntry_succ s r2 hni h1 h2]
    refine ⟨rfl, rfl, ?_, ?_⟩ <;> simp [applyRecord, cleanHistory, addToHistory, add, setHead]
  have hmain : ∃ e, handleEntry s r = ⟨s, [e, .parentMismatch r.number], false⟩ := by
    by_cases hgap : u64sub1 r.number > s.blockNumber
    · -- forward-gap case: forwardTo errors without mutating
      have hfwd : ∃ e, forwardTo topFuel s (u64sub1 r.number) r.parentHash
          = ⟨s, [e], false⟩ := by
        obtain ⟨nk, ok, hnk, hok⟩ := keys_of_ne_nil s.hashHistory hne
        rw [topFuel_eq]
        simp only [forwardTo, hnk, hok]
        split
        · exact ⟨_, rfl⟩
        · rcases forwardTrace_absent s.blockNumber (u64sub1 r.number) r.parentHash
            s.hashHistory.reverse
            (fun p hp' => habs p (List.mem_reverse.mp hp')) with htr | ⟨hN, htr⟩
          · refine ⟨.forwardIncomplete (u64sub1 r.number) s.blockNumber, ?_⟩
            rw [htr]
            simp only [forwardReplay]
            have hne' : s.blockNumber ≠ u64sub1 r.number := by omega
            simp [hne']
          · rw [htr]
            exact ⟨_, rfl⟩
      obtain ⟨e, hfwd⟩ := hfwd
      have hchk : u64sub1 r.number ≠ s.blockNumber ∨ r.parentHash ≠ s.hash :=
        Or.inl (by omega)
      refine ⟨e, ?_⟩
      simp only [handleEntry, if_neg hni, if_pos hgap, hfwd, if_pos hchk]
      rfl
    · -- rewind-by-hash case: the parent is nowhere in history
      have hrw : rewindTo topFuel s r.parentHash 0
          = ⟨s, [.rewindHashNotInHistory r.parentHash], false⟩ := by
        rw [topFuel_eq]
        simp only [rewindTo, if_pos rfl, getSupplyByHash_none s.hashHistory r.parentHash habs]
        simp
      have hcond : r.number ≤ s.blockNumber ∨ r.parentHash ≠ s.hash := Or.inr hp
      have hchk : u64sub1 r.number ≠ s.blockNumber ∨ r.parentHash ≠ s.hash := Or.inr hp
      refine ⟨.rewindHashNotInHistory r.parentHash, ?_⟩
      simp only [handleEntry, if_neg hni, if_neg hgap, if_pos hcond, if_pos hp, hrw,
        if_pos hchk]
      rfl
  obtain ⟨e, hmain⟩ := hmain
  exact ⟨by rw [hmain], by rw [hmain], by rw [hmain]; simp, hsucc⟩

/-- C6 (amended): for every `rewindTo(targetHash, hint)` call whose
resolved target number equals the current head number — by direct hint
(part 1) or by hash scan (part 2) — and whose resolved number is POSITIVE
and target hash NON-ZERO, the result equals: walk one height down to the
parent, then execute the deferred `forwardTo(number, targetHash)` on the
walked state, appending its errors after the walk's.  (The positivity and
non-zero-hash hypotheses are forced by `c6_counterexample`: the Go guard
`forwardToNumber > 0 && forwardToHash != common.Hash{}` skips the
deferred forward otherwise.) -/
theorem c6_sibling_deferred_forward (fuel : Nat) (s : State) (h nk ok : Nat) :
    (∀ hint, hint ≠ 0 → hint = s.blockNumber → 0 < s.blockNumber → h ≠ 0 →
      newestKey s.hashHistory = some nk → oldestKey s.hashHistory = some ok →
      ¬(nk < hint ∨ ok > hint) →
      rewindTo (fuel + 2) s h hint =
        ⟨(forwardTo fuel (rewindWalk (s.blockNumber - 1) 1 s).1 s.blockNumber h).st,
         errOpt (rewindWalk (s.blockNumber - 1) 1 s).2
           ++ (forwardTo fuel (rewindWalk (s.blockNumber - 1) 1 s).1 s.blockNumber h).errs,
         (forwardTo fuel (rewindWalk (s.blockNumber - 1) 1 s).1 s.blockNumber h).crashed⟩) ∧
    (∀ lk, getSupplyByHash s.hashHistory h = some lk → lk.number = s.blockNumber →
      0 < s.blockNumber → h ≠ 0 →
      rewindTo (fuel + 2) s h 0 =
        ⟨(forwardTo fuel (rewindWalk (s.blockNumber - 1) 1 s).1 s.blockNumber h).st,
         errOpt (rewindWalk (s.blockNumber - 1) 1 s).2
           ++ (forwardTo fuel (rewindWalk (s.blockNumber - 1) 1 s).1 s.blockNumber h).errs,
         (forwardTo fuel (rewindWalk (s.blockNumber - 1) 1 s).1 s.blockNumber h).crashed⟩) := by
  have hfrom : ∀ number, number = s.blockNumber → 0 < s.blockNumber → h ≠ 0 →
      rewindFrom (fuel + 1) s h number =
        ⟨(forwardTo fuel (rewindWalk (s.blockNumber - 1) 1 s).1 s.blockNumber h).st,
         errOpt (rewindWalk (s.blockNumber - 1) 1 s).2
           ++ (forwardTo fuel (rewindWalk (s.blockNumber - 1) 1 s).1 s.blockNumber h).errs,
         (forwardTo fuel (rewindWalk (s.blockNumber - 1) 1 s).1 s.blockNumber h).crashed⟩ := by
    intro number hnum hpos hh
    have h0 : number ≠ 0 := by omega
    have hsub : u64sub1 number = s.blockNumber - 1 := by
      rw [u64sub1_of_ne_zero h0, hnum]
    simp only [rewindFrom, if_pos hnum, hsub,
      if_pos (by omega : s.blockNumber ≥ s.blockNumber - 1),
      if_pos (⟨by omega, hh⟩ : 0 < number ∧ h ≠ 0)]
    have hgas : s.blockNumber - (s.blockNumber - 1) = 1 := by omega
    rw [hgas, hnum]
  refine ⟨?_, ?_⟩
  · intro hint h0 hbn hpos hh hnk hok hrange
    simp only [rewindTo, if_neg h0, hnk, hok, if_neg hrange]
    exact hfrom hint hbn hpos hh
  · intro lk hlk hlkn hpos hh
    simp only [rewindTo, if_pos rfl, hlk]
    exact hfrom lk.number hlkn hpos hh

theorem c6_sibling_deferred_forward_witness :
    rewindTo (8 + 2) c6wpre 203 3 =
      ⟨(forwardTo 8 (rewindWalk (c6wpre.blockNumber - 1) 1 c6wpre).1 c6wpre.blockNumber 203).st,
       errOpt (rewindWalk (c6wpre.blockNumber - 1) 1 c6wpre).2
         ++ (forwardTo 8 (rewindWalk (c6wpre.blockNumber - 1) 1 c6wpre).1
               c6wpre.blockNumber 203).errs,
       (forwardTo 8 (rewindWalk (c6wpre.blockNumber - 1) 1 c6wpre).1
         c6wpre.blockNumber 203).crashed⟩ ∧
    (rewindTo (8 + 2) c6wpre 203 3).st.hash = 203 ∧
    (rewindTo (8 + 2) c6wpre 203 3).st.totalReward = 5 ∧
    canonFind (rewindTo (8 + 2) c6wpre 203 3).st.canonicalChain 3 = some 203 :=
  ⟨(c6_sibling_deferred_forward 8 c6wpre 203 3 0).1 3 (by decide) (by decide) (by decide)
    (by decide) (by decide) (by decide) (by decide),
   by decide, by decide, by decide⟩

/-- C7 (amended): loading a checkpoint restores head and totals and
leaves history and the canonical index empty; from that state, a record
that is not a clean successor and is NOT a forward gap, with a parent
hash differing from the restored head hash, fails with `NotInHistory`
followed by `ParentMismatch` and leaves the state unchanged; a forward
gap record instead crashes on a nil dereference with no error at all
(forced by `c7_counterexample`). -/
theorem c7_resume_after_load
    (p : PState) (r : supplyInfo)
    (hbn : 1 ≤ p.blockNumber)
    (hp : r.parentHash ≠ p.hash)
    (hgap : ¬ u64sub1 r.number > p.blockNumber) :
    (loadStateData newState p).blockNumber = p.blockNumber ∧
    (loadStateData newState p).hash = p.hash ∧
    (loadStateData newState p).parentHash = p.parentHash ∧
    (loadStateData newState p).totalDelta = p.totalDelta ∧
    (loadStateData newState p).totalReward = p.totalReward ∧
    (loadStateData newState p).totalWithdrawals = p.totalWithdrawals ∧
    (loadStateData newState p).totalBurn = p.totalBurn ∧
    (loadStateData newState p).hashHistory = [] ∧
    (loadStateData newState p).canonicalChain = [] ∧
    handleEntry (loadStateData newState p) r =
      ⟨loadStateData newState p,
       [.rewindHashNotInHistory r.parentHash, .parentMismatch r.number], false⟩ ∧
    (∀ r2 : supplyInfo, u64sub1 r2.number > p.blockNumber →
      (handleEntry (loadStateData newState p) r2).crashed = true ∧
      (handleEntry (loadStateData newState p) r2).errs = []) := by
  set s := loadStateData newState p with hs
  have hsbn : s.blockNumber = p.blockNumber := rfl
  have hsh : s.hash = p.hash := rfl
  have hni : ¬(s.blockNumber = 0 ∧ s.hash = 0) := by
    rw [hsbn]
    intro hh
    omega
  have hempty : s.hashHistory = [] := rfl
  refine ⟨rfl, rfl, rfl, rfl, rfl, rfl, rfl, rfl, rfl, ?_, ?_⟩
  · have hp' : r.parentHash ≠ s.hash := by rw [hsh]; exact hp
    have hrw : rewindTo topFuel s r.parentHash 0
        = ⟨s, [.rewindHashNotInHistory r.parentHash], false⟩ := by
      rw [topFuel_eq]
      have hnone : getSupplyByHash s.hashHistory r.parentHash = none := by
        rw [hempty]
        rfl
      simp only [rewindTo, if_pos rfl, hnone]
      simp
    have hgap' : ¬ u64sub1 r.number > s.blockNumber := by rw [hsbn]; exact hgap
    have hcond : r.number ≤ s.blockNumber ∨ r.parentHash ≠ s.hash := Or.inr hp'
    have hchk : u64sub1 r.number ≠ s.blockNumber ∨ r.parentHash ≠ s.hash := Or.inr hp'
    simp only [handleEntry, if_neg hni, if_neg hgap', if_pos hcond, if_pos hp', hrw,
      if_pos hchk]
    rfl
  · intro r2 hgap2
    have hgap2' : u64sub1 r2.number > s.blockNumber := by rw [hsbn]; exact hgap2
    have hfwd : forwardTo topFuel s (u64sub1 r2.number) r2.parentHash = ⟨s, [], true⟩ := by
      rw [topFuel_eq]
      have h1 : newestKey s.hashHistory = none := by rw [hempty]; rfl
      simp only [forwardTo, h1]
    simp only [handleEntry, if_neg hni, if_pos hgap2', hfwd]
    exact ⟨rfl, rfl⟩

theorem newestKey_mem (hist : History) (nk : Nat) (h : newestKey hist = some nk) :
    ∃ p ∈ hist, p.1 = nk := by
  have hne : hist ≠ [] := by
    intro he
    rw [he] at h
    exact absurd h (by simp [newestKey])
  unfold newestKey at h
  rw [List.getLast?_eq_getLast_of_ne_nil hne] at h
  refine ⟨hist.getLast hne, List.getLast_mem hne, ?_⟩
  simpa using h

/-- C10 (amended): for every initialised state with `1 ≤ head.number <
2^64 − 1` and a non-empty history all of whose stored heights are below
`2^64 − 1`, ingesting a record with number 0 never applies it: `0 − 1`
wraps to `2^64 − 1`, the record is classified as a forward gap,
`forwardTo` fails its range check with `NotInHistory`, the parent check
then fails with `ParentMismatch`, and head, totals, history and canonical
index are all unchanged.  (The height-bound hypotheses are forced by
`c10_counterexample`.) -/
theorem c10_number_zero_guard
    (s : State) (r : supplyInfo)
    (hbn : 1 ≤ s.blockNumber)
    (hmax : s.blockNumber < U64MAX)
    (hne : s.hashHistory ≠ [])
    (hkeys : ∀ p ∈ s.hashHistory, p.1 < U64MAX)
    (hr : r.number = 0) :
    handleEntry s r = ⟨s, [.forwardNotInHistory U64MAX, .parentMismatch 0], false⟩ := by
  have hni : ¬(s.blockNumber = 0 ∧ s.hash = 0) := fun hh => by omega
  have hsub : u64sub1 r.number = U64MAX := by rw [hr]; rfl
  have hgap : u64sub1 r.number > s.blockNumber := by omega
  obtain ⟨nk, ok, hnk, hok⟩ := keys_of_ne_nil s.hashHistory hne
  have hnkm : nk < U64MAX := by
    obtain ⟨q, hq, hq1⟩ := newestKey_mem s.hashHistory nk hnk
    rw [← hq1]
    exact hkeys q hq
  have hfwd : forwardTo topFuel s (u64sub1 r.number) r.parentHash
      = ⟨s, [.forwardNotInHistory U64MAX], false⟩ := by
    rw [topFuel_eq, hsub]
    simp only [forwardTo, hnk, hok]
    rw [if_pos (Or.inl hnkm)]
  have hchk : u64sub1 r.number ≠ s.blockNumber ∨ r.parentHash ≠ s.hash :=
    Or.inl (by omega)
  simp only [handleEntry, if_neg hni, if_pos hgap, hfwd, if_pos hchk]
  simp [hr]

theorem c5_parent_mismatch_witness :
    (handleEntry c5pre c5bad).st = c5pre ∧
    (handleEntry c5pre c5bad).errs.getLast? = some (Err.parentMismatch c5bad.number) ∧
    (handleEntry c5pre c5good).errs = [] ∧
    (handleEntry c5pre c5good).st.hash = c5good.hash := by
  have h := c5_parent_mismatch c5pre c5bad (by decide) (by decide) (by decide) (by decide)
  exact ⟨h.1, h.2.2.1, (h.2.2.2 c5good (by decide) (by decide)).1,
    (h.2.2.2 c5good (by decide) (by decide)).2.2.2⟩

theorem c7_resume_after_load_witness :
    (loadStateData newState c7cp).hashHistory = [] ∧
    (loadStateData newState c7cp).canonicalChain = [] ∧
    handleEntry (loadStateData newState c7cp) c7bad =
      ⟨loadStateData newState c7cp,
       [.rewindHashNotInHistory c7bad.parentHash, .parentMismatch c7bad.number], false⟩ := by
  obtain ⟨-, -, -, -, -, -, -, h8, h9, h10, -⟩ :=
    c7_resume_after_load c7cp c7bad (by decide) (by decide) (by decide)
  exact ⟨h8, h9, h10⟩

theorem c10_number_zero_guard_witness :
    handleEntry c10wpre ⟨0, 900, 899, 1, 1, 1, 1⟩ =
      ⟨c10wpre, [.forwardNotInHistory U64MAX, .parentMismatch 0], false⟩ :=
  c10_number_zero_guard c10wpre ⟨0, 900, 899, 1, 1, 1, 1⟩
    (by decide) (by decide) (by decide) (by decide) (by decide)

theorem applyRecord_blockNumber (s : State) (r : supplyInfo) :
    (applyRecord s r).blockNumber = r.number := rfl

theorem applyRecord_hash (s : State) (r : supplyInfo) :
    (applyRecord s r).hash = r.hash := rfl

theorem applyRecord_parentHash (s : State) (r : supplyInfo) :
    (applyRecord s r).parentHash = r.parentHash := rfl

theorem applyRecord_totalDelta (s : State) (r : supplyInfo) :
    (applyRecord s r).totalDelta = s.totalDelta + r.delta := rfl

theorem applyRecord_totalReward (s : State) (r : supplyInfo) :
    (applyRecord s r).totalReward = s.totalReward + r.reward := rfl

theorem applyRecord_totalWithdrawals (s : State) (r : supplyInfo) :
    (applyRecord s r).totalWithdrawals = s.totalWithdrawals + r.withdrawals := rfl

theorem applyRecord_totalBurn (s : State) (r : supplyInfo) :
    (applyRecord s r).totalBurn = s.totalBurn + r.burn := rfl

theorem ingestAll_chain (rest : List supplyInfo) :
    ∀ s : State, ¬(s.blockNumber = 0 ∧ s.hash = 0) → chainOK s.blockNumber s.hash rest →
    (ingestAll rest s).2.1 = [] ∧ (ingestAll rest s).2.2 = false ∧
    ((ingestAll rest s).1.blockNumber, (ingestAll rest s).1.hash,
     (ingestAll rest s).1.parentHash)
      = (match rest.getLast? with
         | none => (s.blockNumber, s.hash, s.parentHash)
         | some r => (r.number, r.hash, r.parentHash)) ∧
    (ingestAll rest s).1.totalDelta = s.totalDelta + sumBy supplyInfo.delta rest ∧
    (ingestAll rest s).1.totalReward = s.totalReward + sumBy supplyInfo.reward rest ∧
    (ingestAll rest s).1.totalWithdrawals
      = s.totalWithdrawals + sumBy supplyInfo.withdrawals rest ∧
    (ingestAll rest s).1.totalBurn = s.totalBurn + sumBy supplyInfo.burn rest := by
  induction rest with
  | nil =>
    intro s _ _
    refine ⟨rfl, rfl, rfl, ?_, ?_, ?_, ?_⟩ <;> simp [ingestAll, sumBy]
  | cons r rest2 ih =>
    intro s hni hch
    obtain ⟨hnum, hpar, hch2⟩ := hch
    have hstep : handleEntry s r = ⟨applyRecord s r, [], false⟩ :=
      handleEntry_succ s r hni hnum hpar
    have hni2 : ¬((applyRecord s r).blockNumber = 0 ∧ (applyRecord s r).hash = 0) := by
      rw [applyRecord_blockNumber, hnum]
      intro hh
      omega
    have hch2' : chainOK (applyRecord s r).blockNumber (applyRecord s r).hash rest2 := by
      rw [applyRecord_blockNumber, applyRecord_hash, hnum]
      exact hch2
    have ihx := ih (applyRecord s r) hni2 hch2'
    have hun : ingestAll (r :: rest2) s
        = ((ingestAll rest2 (applyRecord s r)).1,
           [] ++ (ingestAll rest2 (applyRecord s r)).2.1,
           (ingestAll rest2 (applyRecord s r)).2.2) := by
      simp only [ingestAll, hstep]
      rfl
    rw [hun]
    refine ⟨by simpa using ihx.1, ihx.2.1, ?_, ?_, ?_, ?_, ?_⟩
    · rw [ihx.2.2.1]
      cases rest2 with
      | nil =>
        simp [applyRecord_blockNumber, applyRecord_hash, applyRecord_parentHash]
      | cons x xs =>
        rw [List.getLast?_cons_cons]
        rcases hl : (x :: xs).getLast? with - | q
        · exact absurd hl (by simp [List.getLast?_eq_getLast_of_ne_nil])
        · rfl
    · rw [ihx.2.2.2.1, applyRecord_totalDelta]
      simp [sumBy, add_assoc]
    · rw [ihx.2.2.2.2.1, applyRecord_totalReward]
      simp [sumBy, add_assoc]
    · rw [ihx.2.2.2.2.2.1, applyRecord_totalWithdrawals]
      simp [sumBy, add_assoc]
    · rw [ihx.2.2.2.2.2.2, applyRecord_totalBurn]
      simp [sumBy, add_assoc]

/-- C3: sequential monotone ingest is a pure sum.  For every chain
`r₁ :: rest` with `r₁.number = 1`, numbers increasing by one and each
parent hash equal to the previous record's hash, ingesting the whole
chain from the fresh state succeeds at every step (no errors, no crash),
leaves head equal to the last record's identity, and leaves every totals
field equal to the sum of the corresponding per-record quantities. -/
theorem c3_monotone_ingest_sum
    (r1 : supplyInfo) (rest : List supplyInfo)
    (h1 : r1.number = 1)
    (hch : chainOK 1 r1.hash rest) :
    (ingestAll (r1 :: rest) newState).2.1 = [] ∧
    (ingestAll (r1 :: rest) newState).2.2 = false ∧
    (ingestAll (r1 :: rest) newState).1.blockNumber
      = ((r1 :: rest).getLast (by simp)).number ∧
    (ingestAll (r1 :: rest) newState).1.hash = ((r1 :: rest).getLast (by simp)).hash ∧
    (ingestAll (r1 :: rest) newState).1.parentHash
      = ((r1 :: rest).getLast (by simp)).parentHash ∧
    (ingestAll (r1 :: rest) newState).1.totalDelta = sumBy supplyInfo.delta (r1 :: rest) ∧
    (ingestAll (r1 :: rest) newState).1.totalReward = sumBy supplyInfo.reward (r1 :: rest) ∧
    (ingestAll (r1 :: rest) newState).1.totalWithdrawals
      = sumBy supplyInfo.withdrawals (r1 :: rest) ∧
    (ingestAll (r1 :: rest) newState).1.totalBurn = sumBy supplyInfo.burn (r1 :: rest) := by
  have hinit : handleEntry newState r1 = ⟨applyRecord newState r1, [], false⟩ := by
    simp only [handleEntry]
    rw [if_pos ⟨rfl, rfl⟩]
  have hun : ingestAll (r1 :: rest) newState
      = ((ingestAll rest (applyRecord newState r1)).1,
         [] ++ (ingestAll rest (applyRecord newState r1)).2.1,
         (ingestAll rest (applyRecord newState r1)).2.2) := by
    simp only [ingestAll, hinit]
    rfl
  have hni2 : ¬((applyRecord newState r1).blockNumber = 0
      ∧ (applyRecord newState r1).hash = 0) := by
    rw [applyRecord_blockNumber, h1]
    intro hh
    omega
  have hch2 : chainOK (applyRecord newState r1).blockNumber
      (applyRecord newState r1).hash rest := by
    rw [applyRecord_blockNumber, applyRecord_hash, h1]
    exact hch
  have ihx := ingestAll_chain rest (applyRecord newState r1) hni2 hch2
  rw [hun]
  have hD : (applyRecord newState r1).totalDelta = r1.delta := by
    rw [applyRecord_totalDelta]
    simp [newState]
  have hR : (applyRecord newState r1).totalReward = r1.reward := by
    rw [applyRecord_totalReward]
    simp [newState]
  have hW : (applyRecord newState r1).totalWithdrawals = r1.withdrawals := by
    rw [applyRecord_totalWithdrawals]
    simp [newState]
  have hB : (applyRecord newState r1).totalBurn = r1.burn := by
    rw [applyRecord_totalBurn]
    simp [newState]
  have hhead : ((ingestAll rest (applyRecord newState r1)).1.blockNumber,
      (ingestAll rest (applyRecord newState r1)).1.hash,
      (ingestAll rest (applyRecord newState r1)).1.parentHash)
      = (((r1 :: rest).getLast (by simp)).number, ((r1 :: rest).getLast (by simp)).hash,
         ((r1 :: rest).getLast (by simp)).parentHash) := by
    rw [ihx.2.2.1]
    cases rest with
    | nil =>
      simp [applyRecord_blockNumber, applyRecord_hash, applyRecord_parentHash]
    | cons x xs =>
      rw [List.getLast?_eq_getLast_of_ne_nil (by simp : x :: xs ≠ [])]
      have : (r1 :: x :: xs).getLast (by simp) = (x :: xs).getLast (by simp) := by
        simp [List.getLast_cons]
      rw [this]
  refine ⟨by simpa using ihx.1, ihx.2.1,
    congrArg Prod.fst hhead,
    ?_, ?_, ?_, ?_, ?_, ?_⟩
  · exact congrArg (fun t => t.2.1) hhead
  · exact congrArg (fun t => t.2.2) hhead
  · rw [ihx.2.2.2.1, hD]
    simp [sumBy]
  · rw [ihx.2.2.2.2.1, hR]
    simp [sumBy]
  · rw [ihx.2.2.2.2.2.1, hW]
    simp [sumBy]
  · rw [ihx.2.2.2.2.2.2, hB]
    simp [sumBy]

theorem c3_monotone_ingest_sum_witness :
    (ingestAll [c3r1, c3r2] newState).2.1 = [] ∧
    (ingestAll [c3r1, c3r2] newState).1.blockNumber = 2 ∧
    (ingestAll [c3r1, c3r2] newState).1.hash = 6 ∧
    (ingestAll [c3r1, c3r2] newState).1.totalReward = 3 := by
  have h := c3_monotone_ingest_sum c3r1 [c3r2] (by decide) (by simp [chainOK, c3r1, c3r2])
  exact ⟨h.1, h.2.2.1, h.2.2.2.1, h.2.2.2.2.2.2.1⟩

theorem cleanHistoryList_length (l : History) :
    (cleanHistoryList l).length = min l.length historyLimit := by
  induction l with
  | nil => simp [cleanHistoryList]
  | cons a t ih =>
    simp only [cleanHistoryList]
    split
    · next h => exact (Nat.min_eq_left h).symm
    · next h =>
      have h1 : historyLimit ≤ t.length := by
        simp only [List.length_cons] at h
        omega
      rw [ih, Nat.min_eq_right h1, Nat.min_eq_right (by simp; omega)]

theorem cleanHistoryList_of_le (l : History) (h : l.length ≤ historyLimit) :
    cleanHistoryList l = l := by
  cases l with
  | nil => rfl
  | cons a t => simp only [cleanHistoryList, if_pos h]

theorem handleEntry_cases (s : State) (r : supplyInfo) :
    (handleEntry s r).st.hashHistory = s.hashHistory ∨
    ∃ s1 : State, s1.hashHistory = s.hashHistory ∧ (handleEntry s r).st = applyRecord s1 r := by
  by_cases hini : s.blockNumber = 0 ∧ s.hash = 0
  · exact Or.inr ⟨s, rfl, by simp only [handleEntry, if_pos hini]⟩
  · obtain ⟨hrw, -, hfw, -⟩ := recon_hashHistory topFuel
    simp only [handleEntry, if_neg hini]
    set recon := (if u64sub1 r.number > s.blockNumber then
        forwardTo topFuel s (u64sub1 r.number) r.parentHash
      else if r.number ≤ s.blockNumber ∨ r.parentHash ≠ s.hash then
        rewindTo topFuel s r.parentHash (if r.parentHash ≠ s.hash then 0 else u64sub1 r.number)
      else ⟨s, [], false⟩) with hrec
    have hst : recon.st.hashHistory = s.hashHistory := by
      rw [hrec]
      split
      · exact hfw _ _ _
      · split
        · exact hrw _ _ _
        · rfl
    split
    · exact Or.inl hst
    · split
      · exact Or.inl hst
      · exact Or.inr ⟨recon.st, hst, rfl⟩

theorem handleEntry_history_bound (s : State) (r : supplyInfo)
    (hle : s.hashHistory.length ≤ historyLimit) :
    (handleEntry s r).st.hashHistory.length ≤ historyLimit := by
  rcases handleEntry_cases s r with h | ⟨s1, h1, h2⟩
  · rw [h]
    exact hle
  · rw [h2]
    show (cleanHistoryList _).length ≤ _
    rw [cleanHistoryList_length]
    exact Nat.min_le_right _ _

theorem histGet_map_none (g : Nat → Bucket) (l : List Nat) (k : Nat) (h : k ∉ l) :
    histGet (l.map (fun i => (i, g i))) k = none := by
  induction l with
  | nil => rfl
  | cons a t ih =>
    simp only [List.map_cons, histGet]
    rw [if_neg (fun he => h (by rw [← he]; exact List.mem_cons_self a t)),
      ih (fun hm => h (List.mem_cons_of_mem _ hm))]

theorem histSet_absent (hist : History) (k : Nat) (b : Bucket) :
    (∀ p ∈ hist, p.1 ≠ k) → histSet hist k b = hist ++ [(k, b)] := by
  induction hist with
  | nil => intro _; rfl
  | cons a t ih =>
    intro h
    obtain ⟨a1, a2⟩ := a
    simp only [histSet]
    rw [if_neg (h (a1, a2) (List.mem_cons_self _ _)),
      ih (fun p hp => h p (List.mem_cons_of_mem _ hp))]
    rfl

theorem iterIngest_closed : ∀ n : Nat,
    (iterIngest n).blockNumber = n ∧ (iterIngest n).hash = n + 1 ∧
    (iterIngest n).hashHistory
      = (List.range' (n + 1 - historyLimit) (min (n + 1) historyLimit)).map
          (fun i => (i, [(i + 1, mrec i)])) := by
  intro n
  induction n with
  | zero => exact ⟨rfl, rfl, by decide⟩
  | succ n ih =>
    obtain ⟨hbn, hh, hhist⟩ := ih
    have hni : ¬((iterIngest n).blockNumber = 0 ∧ (iterIngest n).hash = 0) := by
      rw [hbn, hh]
      intro hx
      omega
    have hstep : handleEntry (iterIngest n) (mrec (n + 1))
        = ⟨applyRecord (iterIngest n) (mrec (n + 1)), [], false⟩ :=
      handleEntry_succ _ _ hni (by rw [hbn]; rfl) (by rw [hh]; rfl)
    have hun : iterIngest (n + 1) = applyRecord (iterIngest n) (mrec (n + 1)) := by
      show (handleEntry (iterIngest n) (mrec (n + 1))).st = _
      rw [hstep]
    refine ⟨by rw [hun, applyRecord_blockNumber]; rfl, by rw [hun, applyRecord_hash]; rfl, ?_⟩
    rw [hun]
    show cleanHistoryList (histSet (iterIngest n).hashHistory (n + 1)
        (bucketInsert ((histGet (iterIngest n).hashHistory (n + 1)).getD []) (n + 2)
          (mrec (n + 1)))) = _
    rw [hhist]
    have hstart : (n + 1 - historyLimit) + min (n + 1) historyLimit = n + 1 := by
      have : historyLimit = 1024 := rfl
      omega
    have hget : histGet ((List.range' (n + 1 - historyLimit)
        (min (n + 1) historyLimit)).map (fun i => (i, [(i + 1, mrec i)]))) (n + 1)
        = none := by
      apply histGet_map_none
      intro hmem
      have := List.mem_range'_1.mp hmem
      omega
    rw [hget]
    have hset : histSet ((List.range' (n + 1 - historyLimit)
          (min (n + 1) historyLimit)).map (fun i => (i, [(i + 1, mrec i)]))) (n + 1)
          (bucketInsert (Option.getD none []) (n + 2) (mrec (n + 1)))
        = (List.range' (n + 1 - historyLimit) (min (n + 1) historyLimit)).map
            (fun i => (i, [(i + 1, mrec i)])) ++ [(n + 1, [(n + 2, mrec (n + 1))])] := by
      apply histSet_absent
      intro p hp
      obtain ⟨i, hi, hip⟩ := List.mem_map.mp hp
      have := List.mem_range'_1.mp hi
      rw [← hip]
      simp only
      omega
    rw [hset]
    have happ : (List.range' (n + 1 - historyLimit) (min (n + 1) historyLimit)).map
          (fun i => (i, [(i + 1, mrec i)])) ++ [(n + 1, [(n + 2, mrec (n + 1))])]
        = (List.range' (n + 1 - historyLimit) (min (n + 1) historyLimit + 1)).map
            (fun i => (i, [(i + 1, mrec i)])) := by
      have hc := @List.range'_concat 1 (n + 1 - historyLimit) (min (n + 1) historyLimit)
      simp only [one_mul] at hc
      rw [hc, List.map_append, hstart]
      rfl
    rw [happ]
    by_cases hcase : min (n + 1) historyLimit + 1 ≤ historyLimit
    · rw [cleanHistoryList_of_le _ (by
        rw [List.length_map, List.length_range']
        exact hcase)]
      have h1 : n + 2 - historyLimit = n + 1 - historyLimit := by
        have : historyLimit = 1024 := rfl
        omega
      have h2 : min (n + 2) historyLimit = min (n + 1) historyLimit + 1 := by
        have : historyLimit = 1024 := rfl
        omega
      rw [h1, h2]
    · have hge : 1023 ≤ n := by
        by_contra hlt
        push_neg at hlt
        have hmin : min (n + 1) historyLimit = n + 1 :=
          Nat.min_eq_left (by simp [historyLimit]; omega)
        rw [hmin] at hcase
        simp [historyLimit] at hcase
        omega
      have hL : min (n + 1) historyLimit = historyLimit :=
        Nat.min_eq_right (by simp [historyLimit]; omega)
      have hsucc' : List.range' (n + 1 - historyLimit) (min (n + 1) historyLimit + 1)
          = (n + 1 - historyLimit) :: List.range' (n + 1 - historyLimit + 1)
              (min (n + 1) historyLimit) :=
        List.range'_succ _ _ 1
      rw [hsucc', List.map_cons]
      simp only [cleanHistoryList]
      rw [if_neg (by simp [List.length_range', hL, historyLimit]; omega)]
      rw [cleanHistoryList_of_le _ (by simp [List.length_range', hL])]
      have h1 : n + 2 - historyLimit = n + 1 - historyLimit + 1 := by
        have : historyLimit = 1024 := rfl
        omega
      have h2 : min (n + 2) historyLimit = min (n + 1) historyLimit := by
        have : historyLimit = 1024 := rfl
        omega
      rw [h1, h2]

theorem handleEntry_mismatch_outcome (s : State) (r : supplyInfo)
    (hni : ¬(s.blockNumber = 0 ∧ s.hash = 0))
    (hgap : ¬(u64sub1 r.number > s.blockNumber))
    (hp : r.parentHash ≠ s.hash)
    (hnone : getSupplyByHash s.hashHistory r.parentHash = none) :
    handleEntry s r
      = ⟨s, [.rewindHashNotInHistory r.parentHash, .parentMismatch r.number], false⟩ := by
  have hrw : rewindTo topFuel s r.parentHash 0
      = ⟨s, [.rewindHashNotInHistory r.parentHash], false⟩ := by
    rw [topFuel_eq]
    simp only [rewindTo, if_pos rfl, hnone]
    exact if_pos trivial
  have hcond : r.number ≤ s.blockNumber ∨ r.parentHash ≠ s.hash := Or.inr hp
  have hchk : u64sub1 r.number ≠ s.blockNumber ∨ r.parentHash ≠ s.hash := Or.inr hp
  simp only [handleEntry, if_neg hni, if_neg hgap, if_pos hcond, if_pos hp, hrw,
    if_pos hchk]
  rfl

set_option maxRecDepth 8000 in
/-- C4: after every ingest whose pre-state history holds at most `H = 1024`
heights the post-state history still holds at most `H` heights; concretely,
after ingesting records 0–1029 monotonically from the fresh state the
history holds exactly 1024 heights, the oldest retained key is 6, and a
subsequent ingest whose reorg targets evicted block 5 (parent hash = block
5's hash) fails with `NotInHistory` followed by `ParentMismatch`, leaving
the state unchanged. -/
theorem c4_history_bound_eviction :
    (∀ (s : State) (r : supplyInfo), s.hashHistory.length ≤ historyLimit →
      (handleEntry s r).st.hashHistory.length ≤ historyLimit) ∧
    (iterIngest 1029).hashHistory.length = historyLimit ∧
    oldestKey (iterIngest 1029).hashHistory = some 6 ∧
    handleEntry (iterIngest 1029) c4rec
      = ⟨iterIngest 1029,
         [.rewindHashNotInHistory c4rec.parentHash, .parentMismatch c4rec.number],
         false⟩ := by
  obtain ⟨hbn, hh, hhist⟩ := iterIngest_closed 1029
  have hstart : (1029 + 1 - historyLimit : Nat) = 6 := rfl
  have hmin : min (1029 + 1) historyLimit = 1024 := rfl
  refine ⟨handleEntry_history_bound, ?_, ?_, ?_⟩
  · rw [hhist]
    simp [List.length_range', historyLimit]
  · rw [hhist, hstart, hmin]
    have h1024 : (1024 : Nat) = 1023 + 1 := rfl
    rw [h1024, List.range'_succ 6 1023 1, List.map_cons]
    rfl
  · have hni : ¬((iterIngest 1029).blockNumber = 0 ∧ (iterIngest 1029).hash = 0) := by
      rw [hbn]
      intro hx
      omega
    have hp : c4rec.parentHash ≠ (iterIngest 1029).hash := by
      rw [hh]
      decide
    have hgap : ¬(u64sub1 c4rec.number > (iterIngest 1029).blockNumber) := by
      rw [hbn]
      decide
    have hnone : getSupplyByHash (iterIngest 1029).hashHistory c4rec.parentHash = none := by
      rw [hhist]
      apply getSupplyByHash_none
      intro p hp'
      obtain ⟨i, hi, hip⟩ := List.mem_map.mp hp'
      have hge := List.mem_range'_1.mp hi
      rw [← hip]
      simp only [bucketFind]
      rw [if_neg (by simp [c4rec]; omega)]
    exact handleEntry_mismatch_outcome (iterIngest 1029) c4rec hni hgap hp hnone

theorem c4_history_bound_eviction_witness :
    newState.hashHistory.length ≤ historyLimit ∧
    (handleEntry newState (mrec 0)).st.hashHistory.length ≤ historyLimit :=
  ⟨by decide, c4_history_bound_eviction.1 newState (mrec 0) (by decide)⟩

theorem decDigitVal_digitChar {d : Nat} (h : d < 10) : decDigitVal (digitChar d) = d := by
  interval_cases d <;> rfl

theorem isDecDigit_digitChar {d : Nat} (h : d < 10) : isDecDigit (digitChar d) = true := by
  interval_cases d <;> rfl

theorem natDecAux_spec :
    ∀ fuel n, n < fuel →
      natDecAux fuel n ≠ [] ∧
      (∀ c ∈ natDecAux fuel n, isDecDigit c = true) ∧
      (∀ acc : Nat, List.foldl (fun acc c => 10 * acc + decDigitVal c) acc (natDecAux fuel n)
        = acc * 10 ^ (natDecAux fuel n).length + n) := by
  intro fuel
  induction fuel with
  | zero => intro n h; omega
  | succ f ih =>
    intro n h
    by_cases h10 : n < 10
    · simp only [natDecAux, if_pos h10]
      refine ⟨by simp, ?_, ?_⟩
      · intro c hc
        simp at hc
        rw [hc]
        exact isDecDigit_digitChar h10
      · intro acc
        simp [decDigitVal_digitChar h10]
        ring
    · simp only [natDecAux, if_neg h10]
      have hdiv : n / 10 < f := by omega
      obtain ⟨hne, hdig, hval⟩ := ih (n / 10) hdiv
      refine ⟨by simp, ?_, ?_⟩
      · intro c hc
        rcases List.mem_append.mp hc with hc | hc
        · exact hdig c hc
        · simp at hc
          rw [hc]
          exact isDecDigit_digitChar (by omega)
      · intro acc
        rw [List.foldl_append, hval acc]
        simp only [List.foldl_cons, List.foldl_nil, List.length_append,
          List.length_singleton]
        rw [decDigitVal_digitChar (by omega : n % 10 < 10)]
        rw [pow_succ]
        have := Nat.div_add_mod n 10
        ring_nf
        omega

theorem natDec_ne_nil (n : Nat) : natDec n ≠ [] :=
  (natDecAux_spec (n + 1) n (by omega)).1

theorem natDec_digits (n : Nat) : ∀ c ∈ natDec n, isDecDigit c = true :=
  (natDecAux_spec (n + 1) n (by omega)).2.1

theorem decVal_natDec (n : Nat) : decVal (natDec n) = n := by
  have h := (natDecAux_spec (n + 1) n (by omega)).2.2 0
  simpa [decVal, natDec] using h

theorem takeWhile_dropWhile_append (p : Char → Bool) :
    ∀ (xs : List Char) (y : Char) (ys : List Char),
      (∀ x ∈ xs, p x = true) → p y = false →
      (xs ++ y :: ys).takeWhile p = xs ∧ (xs ++ y :: ys).dropWhile p = y :: ys := by
  intro xs
  induction xs with
  | nil =>
    intro y ys _ hy
    simp [List.takeWhile, List.dropWhile, hy]
  | cons x xt ih =>
    intro y ys hall hy
    have hx : p x = true := hall x (List.mem_cons_self _ _)
    obtain ⟨h1, h2⟩ := ih y ys (fun z hz => hall z (List.mem_cons_of_mem _ hz)) hy
    simp only [List.cons_append, List.takeWhile, List.dropWhile, hx, List.append_eq]
    exact ⟨by rw [h1], by rw [h2]⟩

theorem parseNatPart_append (n : Nat) (c : Char) (cs : List Char)
    (hc : isDecDigit c = false) :
    parseNatPart (natDec n ++ c :: cs) = some (n, c :: cs) := by
  obtain ⟨ht, hd⟩ := takeWhile_dropWhile_append isDecDigit (natDec n) c cs
    (natDec_digits n) hc
  simp only [parseNatPart, ht, hd]
  rcases hn : natDec n with - | ⟨d, ds⟩
  · exact absurd hn (natDec_ne_nil n)
  · show some (decVal (d :: ds), c :: cs) = some (n, c :: cs)
    rw [← hn, decVal_natDec]

theorem isDecDigit_ne_dash {c : Char} (h : isDecDigit c = true) : c ≠ '-' := by
  intro he
  rw [he] at h
  exact absurd h (by decide)

theorem parseIntPart_append (i : Int) (c : Char) (cs : List Char)
    (hc : isDecDigit c = false) :
    parseIntPart (intDec i ++ c :: cs) = some (i, c :: cs) := by
  by_cases hneg : i < 0
  · simp only [intDec, if_pos hneg, List.cons_append, parseIntPart,
      parseNatPart_append i.natAbs c cs hc, Option.map_some']
    congr 1
    congr 1
    omega
  · simp only [intDec, if_neg hneg]
    rcases hn : natDec i.natAbs with - | ⟨d, ds⟩
    · exact absurd hn (natDec_ne_nil _)
    · have hds : isDecDigit d = true := by
        apply natDec_digits i.natAbs
        rw [hn]
        exact List.mem_cons_self _ _
      have hdd : d ≠ '-' := isDecDigit_ne_dash hds
      simp only [List.cons_append, parseIntPart]
      split
      · next heq =>
        rw [List.cons.injEq] at heq
        exact absurd heq.1 hdd
      · have hform : d :: (ds ++ c :: cs) = natDec i.natAbs ++ c :: cs := by
          rw [hn]
          rfl
        rw [hform, parseNatPart_append i.natAbs c cs hc]
        simp only [Option.map_some']
        congr 1
        congr 1
        omega

theorem hexDigitVal_hexChar {d : Nat} (h : d < 16) : hexDigitVal (hexChar d) = d := by
  interval_cases d <;> rfl

theorem isHexDigit_hexChar {d : Nat} (h : d < 16) : isHexDigit (hexChar d) = true := by
  interval_cases d <;> rfl

theorem natHexAux_spec :
    ∀ fuel n, n < fuel →
      natHexAux fuel n ≠ [] ∧
      (∀ c ∈ natHexAux fuel n, isHexDigit c = true) ∧
      (∀ acc : Nat, List.foldl (fun acc c => 16 * acc + hexDigitVal c) acc (natHexAux fuel n)
        = acc * 16 ^ (natHexAux fuel n).length + n) := by
  intro fuel
  induction fuel with
  | zero => intro n h; omega
  | succ f ih =>
    intro n h
    by_cases h16 : n < 16
    · simp only [natHexAux, if_pos h16]
      refine ⟨by simp, ?_, ?_⟩
      · intro c hc
        simp at hc
        rw [hc]
        exact isHexDigit_hexChar h16
      · intro acc
        simp [hexDigitVal_hexChar h16]
        ring
    · simp only [natHexAux, if_neg h16]
      have hdiv : n / 16 < f := by omega
      obtain ⟨hne, hdig, hval⟩ := ih (n / 16) hdiv
      refine ⟨by simp, ?_, ?_⟩
      · intro c hc
        rcases List.mem_append.mp hc with hc | hc
        · exact hdig c hc
        · simp at hc
          rw [hc]
          exact isHexDigit_hexChar (by omega)
      · intro acc
        rw [List.foldl_append, hval acc]
        simp only [List.foldl_cons, List.foldl_nil, List.length_append,
          List.length_singleton]
        rw [hexDigitVal_hexChar (by omega : n % 16 < 16)]
        rw [pow_succ]
        have := Nat.div_add_mod n 16
        ring_nf
        omega

theorem natHexAux_length_le :
    ∀ fuel n k, n < fuel → n < 16 ^ k → 1 ≤ k → (natHexAux fuel n).length ≤ k := by
  intro fuel
  induction fuel with
  | zero => intro n k h; omega
  | succ f ih =>
    intro n k h hk h1
    by_cases h16 : n < 16
    · simp [natHexAux, if_pos h16]
      omega
    · simp only [natHexAux, if_neg h16]
      have hk2 : 2 ≤ k := by
        by_contra hlt
        push_neg at hlt
        interval_cases k
        · omega
      have hdivk : n / 16 < 16 ^ (k - 1) := by
        rw [Nat.div_lt_iff_lt_mul (by omega : 0 < 16)]
        calc n < 16 ^ k := hk
        _ = 16 ^ (k - 1) * 16 := by
          rw [← pow_succ]
          congr 1
          omega
      have := ih (n / 16) (k - 1) (by omega) hdivk (by omega)
      simp only [List.length_append, List.length_singleton]
      omega

theorem hashHex_length {n : Nat} (h : n < 16 ^ 64) : (hashHex n).length = 64 := by
  have hle : (natHex n).length ≤ 64 :=
    natHexAux_length_le (n + 1) n 64 (by omega) h (by omega)
  simp only [hashHex, List.length_append, List.length_replicate]
  omega

theorem hashHex_all_hex (n : Nat) : ∀ c ∈ hashHex n, isHexDigit c = true := by
  intro c hc
  rcases List.mem_append.mp hc with hc | hc
  · rw [List.eq_of_mem_replicate hc]
    decide
  · exact (natHexAux_spec (n + 1) n (by omega)).2.1 c hc

theorem hexVal_hashHex {n : Nat} : hexVal (hashHex n) = n := by
  have hz : ∀ k acc, acc = 0 →
      List.foldl (fun acc c => 16 * acc + hexDigitVal c) acc
        (List.replicate k '0') = 0 := by
    intro k
    induction k with
    | zero => intro acc h; simpa using h
    | succ m ihm =>
      intro acc h
      simp only [List.replicate, List.foldl_cons]
      exact ihm _ (by rw [h]; rfl)
  have hval := (natHexAux_spec (n + 1) n (by omega)).2.2 0
  simp only [hexVal, hashHex, List.foldl_append]
  rw [hz _ 0 rfl]
  simpa [natHex] using hval

theorem parseHash_append {n : Nat} (rest : List Char) (h : n < 16 ^ 64) :
    parseHash (hashHex n ++ rest) = some (n, rest) := by
  have hlen := hashHex_length h
  have htake : (hashHex n ++ rest).take 64 = hashHex n := by
    rw [← hlen]
    exact List.take_left _ _
  have hdrop : (hashHex n ++ rest).drop 64 = rest := by
    rw [← hlen]
    exact List.drop_left _ _
  have hcond : 64 ≤ (hashHex n ++ rest).length ∧
      ((hashHex n ++ rest).take 64).all isHexDigit := by
    constructor
    · rw [List.length_append, hlen]
      omega
    · rw [htake]
      exact List.all_eq_true.mpr (hashHex_all_hex n)
  simp only [parseHash, htake, hdrop, hexVal_hashHex]
  rw [if_pos ⟨hcond.1, htake ▸ hcond.2⟩]

theorem dropLit_append : ∀ (lit rest : List Char), dropLit lit (lit ++ rest) = some rest := by
  intro lit
  induction lit with
  | nil => intro rest; rfl
  | cons c cs ih =>
    intro rest
    simp only [List.cons_append, dropLit, if_pos rfl]
    exact ih rest

theorem parseFileEnd_append (f : List Char) (hf : ∀ c ∈ f, c ≠ '"') :
    parseFileEnd (f ++ '"' :: '\x7d' :: []) = some f := by
  obtain ⟨ht, hd⟩ := takeWhile_dropWhile_append (fun c => !(c = '"')) f '"'
    ('\x7d' :: []) (fun x hx => by simp [hf x hx]) (by simp)
  simp only [parseFileEnd, ht, hd]
theorem decodePersisted_encodePersisted (p : PState)
    (hh : p.hash < 16 ^ 64) (hph : p.parentHash < 16 ^ 64)
    (hf : ∀ c ∈ p.file, c ≠ '"') :
    decodePersisted (encodePersisted p) = some p := by
  have hENC : encodePersisted p = "\x7b\"blockNumber\":".data ++ (natDec p.blockNumber ++ (",\"hash\":\"0x".data ++ (hashHex p.hash ++ ("\",\"parentHash\":\"0x".data ++ (hashHex p.parentHash ++ ("\",\"totalDelta\":".data ++ (intDec p.totalDelta ++ (",\"totalReward\":".data ++ (intDec p.totalReward ++ (",\"totalWithdrawals\":".data ++ (intDec p.totalWithdrawals ++ (",\"totalBurn\":".data ++ (intDec p.totalBurn ++ (",\"file\":\"".data ++ (p.file ++ ("\"\x7d".data)))))))))))))))) := by
    simp [encodePersisted, List.append_assoc]
  have hP1 : parseNatPart (natDec p.blockNumber ++ (",\"hash\":\"0x".data ++ (hashHex p.hash ++ ("\",\"parentHash\":\"0x".data ++ (hashHex p.parentHash ++ ("\",\"totalDelta\":".data ++ (intDec p.totalDelta ++ (",\"totalReward\":".data ++ (intDec p.totalReward ++ (",\"totalWithdrawals\":".data ++ (intDec p.totalWithdrawals ++ (",\"totalBurn\":".data ++ (intDec p.totalBurn ++ (",\"file\":\"".data ++ (p.file ++ ("\"\x7d".data)))))))))))))))) = some (p.blockNumber, ",\"hash\":\"0x".data ++ (hashHex p.hash ++ ("\",\"parentHash\":\"0x".data ++ (hashHex p.parentHash ++ ("\",\"totalDelta\":".data ++ (intDec p.totalDelta ++ (",\"totalReward\":".data ++ (intDec p.totalReward ++ (",\"totalWithdrawals\":".data ++ (intDec p.totalWithdrawals ++ (",\"totalBurn\":".data ++ (intDec p.totalBurn ++ (",\"file\":\"".data ++ (p.file ++ ("\"\x7d".data))))))))))))))) :=
    parseNatPart_append p.blockNumber ',' ("\"hash\":\"0x".data ++ (hashHex p.hash ++ ("\",\"parentHash\":\"0x".data ++ (hashHex p.parentHash ++ ("\",\"totalDelta\":".data ++ (intDec p.totalDelta ++ (",\"totalReward\":".data ++ (intDec p.totalReward ++ (",\"totalWithdrawals\":".data ++ (intDec p.totalWithdrawals ++ (",\"totalBurn\":".data ++ (intDec p.totalBurn ++ (",\"file\":\"".data ++ (p.file ++ ("\"\x7d".data))))))))))))))) (by decide)
  have hP2 : parseHash (hashHex p.hash ++ ("\",\"parentHash\":\"0x".data ++ (hashHex p.parentHash ++ ("\",\"totalDelta\":".data ++ (intDec p.totalDelta ++ (",\"totalReward\":".data ++ (intDec p.totalReward ++ (",\"totalWithdrawals\":".data ++ (intDec p.totalWithdrawals ++ (",\"totalBurn\":".data ++ (intDec p.totalBurn ++ (",\"file\":\"".data ++ (p.file ++ ("\"\x7d".data)))))))))))))) = some (p.hash, "\",\"parentHash\":\"0x".data ++ (hashHex p.parentHash ++ ("\",\"totalDelta\":".data ++ (intDec p.totalDelta ++ (",\"totalReward\":".data ++ (intDec p.totalReward ++ (",\"totalWithdrawals\":".data ++ (intDec p.totalWithdrawals ++ (",\"totalBurn\":".data ++ (intDec p.totalBurn ++ (",\"file\":\"".data ++ (p.file ++ ("\"\x7d".data))))))))))))) :=
    parseHash_append ("\",\"parentHash\":\"0x".data ++ (hashHex p.parentHash ++ ("\",\"totalDelta\":".data ++ (intDec p.totalDelta ++ (",\"totalReward\":".data ++ (intDec p.totalReward ++ (",\"totalWithdrawals\":".data ++ (intDec p.totalWithdrawals ++ (",\"totalBurn\":".data ++ (intDec p.totalBurn ++ (",\"file\":\"".data ++ (p.file ++ ("\"\x7d".data))))))))))))) hh
  have hP3 : parseHash (hashHex p.parentHash ++ ("\",\"totalDelta\":".data ++ (intDec p.totalDelta ++ (",\"totalReward\":".data ++ (intDec p.totalReward ++ (",\"totalWithdrawals\":".data ++ (intDec p.totalWithdrawals ++ (",\"totalBurn\":".data ++ (intDec p.totalBurn ++ (",\"file\":\"".data ++ (p.file ++ ("\"\x7d".data)))))))))))) = some (p.parentHash, "\",\"totalDelta\":".data ++ (intDec p.totalDelta ++ (",\"totalReward\":".data ++ (intDec p.totalReward ++ (",\"totalWithdrawals\":".data ++ (intDec p.totalWithdrawals ++ (",\"totalBurn\":".data ++ (intDec p.totalBurn ++ (",\"file\":\"".data ++ (p.file ++ ("\"\x7d".data))))))))))) :=
    parseHash_append ("\",\"totalDelta\":".data ++ (intDec p.totalDelta ++ (",\"totalReward\":".data ++ (intDec p.totalReward ++ (",\"totalWithdrawals\":".data ++ (intDec p.totalWithdrawals ++ (",\"totalBurn\":".data ++ (intDec p.totalBurn ++ (",\"file\":\"".data ++ (p.file ++ ("\"\x7d".data))))))))))) hph
  have hP4 : parseIntPart (intDec p.totalDelta ++ (",\"totalReward\":".data ++ (intDec p.totalReward ++ (",\"totalWithdrawals\":".data ++ (intDec p.totalWithdrawals ++ (",\"totalBurn\":".data ++ (intDec p.totalBurn ++ (",\"file\":\"".data ++ (p.file ++ ("\"\x7d".data)))))))))) = some (p.totalDelta, ",\"totalReward\":".data ++ (intDec p.totalReward ++ (",\"totalWithdrawals\":".data ++ (intDec p.totalWithdrawals ++ (",\"totalBurn\":".data ++ (intDec p.totalBurn ++ (",\"file\":\"".data ++ (p.file ++ ("\"\x7d".data))))))))) :=
    parseIntPart_append p.totalDelta ',' ("\"totalReward\":".data ++ (intDec p.totalReward ++ (",\"totalWithdrawals\":".data ++ (intDec p.totalWithdrawals ++ (",\"totalBurn\":".data ++ (intDec p.totalBurn ++ (",\"file\":\"".data ++ (p.file ++ ("\"\x7d".data))))))))) (by decide)
  have hP5 : parseIntPart (intDec p.totalReward ++ (",\"totalWithdrawals\":".data ++ (intDec p.totalWithdrawals ++ (",\"totalBurn\":".data ++ (intDec p.totalBurn ++ (",\"file\":\"".data ++ (p.file ++ ("\"\x7d".data)))))))) = some (p.totalReward, ",\"totalWithdrawals\":".data ++ (intDec p.totalWithdrawals ++ (",\"totalBurn\":".data ++ (intDec p.totalBurn ++ (",\"file\":\"".data ++ (p.file ++ ("\"\x7d".data))))))) :=
    parseIntPart_append p.totalReward ',' ("\"totalWithdrawals\":".data ++ (intDec p.totalWithdrawals ++ (",\"totalBurn\":".data ++ (intDec p.totalBurn ++ (",\"file\":\"".data ++ (p.file ++ ("\"\x7d".data))))))) (by decide)
  have hP6 : parseIntPart (intDec p.totalWithdrawals ++ (",\"totalBurn\":".data ++ (intDec p.totalBurn ++ (",\"file\":\"".data ++ (p.file ++ ("\"\x7d".data)))))) = some (p.totalWithdrawals, ",\"totalBurn\":".data ++ (intDec p.totalBurn ++ (",\"file\":\"".data ++ (p.file ++ ("\"\x7d".data))))) :=
    parseIntPart_append p.totalWithdrawals ',' ("\"totalBurn\":".data ++ (intDec p.totalBurn ++ (",\"file\":\"".data ++ (p.file ++ ("\"\x7d".data))))) (by decide)
  have hP7 : parseIntPart (intDec p.totalBurn ++ (",\"file\":\"".data ++ (p.file ++ ("\"\x7d".data)))) = some (p.totalBurn, ",\"file\":\"".data ++ (p.file ++ ("\"\x7d".data))) :=
    parseIntPart_append p.totalBurn ',' ("\"file\":\"".data ++ (p.file ++ ("\"\x7d".data))) (by decide)
  have hP8 : parseFileEnd (p.file ++ "\"\x7d".data) = some p.file :=
    parseFileEnd_append p.file hf
  simp only [decodePersisted, hENC, dropLit_append, Option.bind, hP1, hP2, hP3, hP4, hP5, hP6, hP7, hP8,
    Option.map_some']

set_option maxRecDepth 10000 in
/-- C8: amended wire format.  The checkpoint written by `SaveState` for the
S6 state (one block at height 0 with reward 5 and burn 8) is a JSON object
with the three head fields, exactly FOUR totals (`totalDelta`,
`totalReward`, `totalWithdrawals`, `totalBurn`) each encoded as a signed
DECIMAL integer by `big.Int.MarshalJSON` — not seven hexadecimal totals,
and with no separate sign field — plus the file name: the delta appears as
the plain decimal `-3`. -/
theorem c8_wire_format :
    saveState c8state "state.json".data
      = "\x7b\"blockNumber\":0,\"hash\":\"0x0000000000000000000000000000000000000000000000000000000000000007\",\"parentHash\":\"0x0000000000000000000000000000000000000000000000000000000000000000\",\"totalDelta\":-3,\"totalReward\":5,\"totalWithdrawals\":0,\"totalBurn\":8,\"file\":\"state.json\"\x7d".data := by
  decide

/-- C9: checkpoint round trip.  For every state whose hashes are
wire-representable (below `2^256`, as every real 32-byte hash is) and
every file name without a quote character, saving the checkpoint and
loading it into a fresh state succeeds and restores a head and totals
identical to the saved state (with empty history and canonical index). -/
theorem c9_checkpoint_roundtrip (s : State) (file : List Char)
    (hh : s.hash < 16 ^ 64) (hph : s.parentHash < 16 ^ 64)
    (hf : ∀ c ∈ file, c ≠ '"') :
    ∃ t, loadState newState (saveState s file) = some (t, file) ∧
      t.blockNumber = s.blockNumber ∧ t.hash = s.hash ∧
      t.parentHash = s.parentHash ∧ t.totalDelta = s.totalDelta ∧
      t.totalReward = s.totalReward ∧
      t.totalWithdrawals = s.totalWithdrawals ∧ t.totalBurn = s.totalBurn ∧
      t.hashHistory = [] ∧ t.canonicalChain = [] := by
  refine ⟨loadStateData newState (persistOf s file),
    ?_, rfl, rfl, rfl, rfl, rfl, rfl, rfl, rfl, rfl⟩
  unfold loadState saveState
  rw [decodePersisted_encodePersisted (persistOf s file) hh hph hf]
  rfl

set_option maxRecDepth 10000 in
/-- C9 witness: the round trip at the S6-style state with negative
delta. -/
theorem c9_checkpoint_roundtrip_witness :
    ∃ t, loadState newState (saveState c9state "state.json".data)
        = some (t, "state.json".data) ∧
      t.blockNumber = c9state.blockNumber ∧ t.hash = c9state.hash ∧
      t.parentHash = c9state.parentHash ∧
      t.totalDelta = c9state.totalDelta ∧
      t.totalReward = c9state.totalReward ∧
      t.totalWithdrawals = c9state.totalWithdrawals ∧
      t.totalBurn = c9state.totalBurn ∧
      t.hashHistory = [] ∧ t.canonicalChain = [] :=
  c9_checkpoint_roundtrip c9state "state.json".data (by decide) (by decide)
    (by decide)

end SupplyTracer
